import Mathlib

/-!
Shallow embedding of the diff-correlation and interactive-review engine of the
`reviewer` terminal application (Rust sources `src/diff.rs` and `src/tui.rs`),
together with theorems settling the specification claims about it.

Modelling conventions:
* Rust `u32` line counters are modelled as `Nat`; `parseU32` enforces the
  `u32` range on parsed values, and counter increments below `2^32` coincide
  with the Rust semantics.
* Byte offsets and byte lengths (`str::len`, word-change span bounds) are
  modelled as character offsets into the `List Char` underlying a `String`;
  the algorithms never mix the two coordinate systems, so the models are
  faithful up to this uniform re-coordinatisation.  Where a claim is
  explicitly about a byte count (the delta size ceiling) `String.utf8ByteSize`
  is used instead.
* Calls into external collaborators (the GitHub CLI wrapper `gh.rs`, the
  `delta` subprocess, the `similar` crate's word diff) are modelled as
  explicit function/result parameters; a `Bool` component records whether the
  collaborator was actually invoked where a claim depends on that.
-/

namespace Reviewer

/-- Boolean prefix test on character lists (the computational core of the
`str::starts_with` model). -/
def isPrefixOfR : List Char → List Char → Bool
  | [], _ => true
  | _ :: _, [] => false
  | a :: as, b :: bs => a == b && isPrefixOfR as bs

/-- Model of Rust `str::starts_with` with a string (or single-character)
pattern. -/
def startsWithR (s pre : String) : Bool :=
  isPrefixOfR pre.data s.data

/-- Model of Rust `str::ends_with`. -/
def endsWithR (s post : String) : Bool :=
  isPrefixOfR post.data.reverse s.data.reverse

/-- Drop the first `n` characters of a string (model of stripping a known
ASCII prefix, as in Rust `&line[1..]` / `strip_prefix`). -/
def dropCharsR (s : String) (n : Nat) : String :=
  String.mk (s.data.drop n)

/-- Fuel-driven worker for `splitOnR`: scan for the (non-empty) separator,
emitting the accumulated segment at each occurrence.  The fuel is the input
length, which each step strictly consumes. -/
def splitOnListAux (sep : List Char) : Nat → List Char → List Char → List (List Char)
  | _, [], acc => [acc.reverse]
  | 0, _, acc => [acc.reverse]
  | fuel + 1, c :: cs, acc =>
    if isPrefixOfR sep (c :: cs) then
      acc.reverse :: splitOnListAux sep fuel ((c :: cs).drop sep.length) []
    else
      splitOnListAux sep fuel cs (c :: acc)

/-- Model of Rust `str::split` with a string pattern (also used for the
single-character patterns): non-overlapping occurrences, empty segments
kept. -/
def splitOnR (s sep : String) : List String :=
  if sep.data.isEmpty then [s]
  else (splitOnListAux sep.data s.data.length s.data []).map String.mk

/-- Split a character list at every character satisfying `p`, keeping empty
segments (the computational core of the predicate-split model). -/
def splitPR (p : Char → Bool) : List Char → List (List Char)
  | [] => [[]]
  | c :: cs =>
    if p c then [] :: splitPR p cs
    else
      match splitPR p cs with
      | [] => [[c]]
      | h :: t => (c :: h) :: t

/-- Model of Rust `str::trim`: whitespace removed from both ends. -/
def trimR (s : String) : String :=
  String.mk (((s.data.dropWhile Char.isWhitespace).reverse.dropWhile Char.isWhitespace).reverse)

/-- Model of Rust `str::to_lowercase` (restricted to the simple one-to-one
character mapping). -/
def toLowerR (s : String) : String :=
  String.mk (s.data.map Char.toLower)

/-- Join strings with a separator (model of reassembling the text after the
first separator occurrence). -/
def intercalateR (sep : String) : List String → String
  | [] => ""
  | [x] => x
  | x :: y :: rest => x ++ sep ++ intercalateR sep (y :: rest)

/-- Model of Rust `str::lines`: split at LF, strip a CR immediately preceding
an LF, and do not produce a final empty line for a trailing newline. -/
def rustLines (s : String) : List String :=
  let parts := splitOnR s "\n"
  let n := parts.length
  let stripped := parts.enum.map (fun p =>
    if p.1 + 1 < n then
      (if endsWithR p.2 "\r" then String.mk p.2.data.dropLast else p.2)
    else p.2)
  match stripped.getLast? with
  | some last => if last = "" then stripped.dropLast else stripped
  | none => stripped

/-- Model of Rust `str::split_whitespace`: split at whitespace characters and
drop empty segments. -/
def splitWhitespaceR (s : String) : List String :=
  ((splitPR Char.isWhitespace s.data).map String.mk).filter (fun t => t ≠ "")

/-- Model of Rust `<u32 as FromStr>::from_str` composed with `.ok()`: an
optional leading `+` sign, then one or more ASCII digits, value below `2^32`. -/
def parseU32 (s : String) : Option Nat :=
  let t := if startsWithR s "+" then dropCharsR s 1 else s
  if t = "" then none
  else if t.data.all Char.isDigit then
    let v := t.data.foldl (fun a c => a * 10 + (c.toNat - 48)) 0
    if v < 4294967296 then some v else none
  else none

/-- Model of Rust `str::trim_start_matches(c)`: drop every leading copy of a
character. -/
def dropLeadingChar (c : Char) (s : String) : String :=
  String.mk (s.data.dropWhile (fun d => d == c))

namespace Diff

/-- Line kinds of the enhanced parser (`DiffLineType` in `src/diff.rs`). -/
inductive DiffLineType where
  | FileHeader
  | OldFile
  | NewFile
  | Hunk
  | Added
  | Removed
  | Context
  | NoNewline
deriving DecidableEq

/-- A word-level change span (`WordChange` in `src/diff.rs`).  The source field
`end` is a Lean keyword and is rendered `endIdx`. -/
structure WordChange where
  start : Nat
  endIdx : Nat
  emphasized : Bool
deriving DecidableEq

/-- Change tags of the `similar` crate's diff iterator. -/
inductive ChangeTag where
  | Equal
  | Delete
  | Insert
deriving DecidableEq

/-- One change of the `similar` crate's word diff: a tag plus the token text. -/
structure Change where
  tag : ChangeTag
  value : String
deriving DecidableEq

/-- A parsed diff line (`EnhancedDiffLine` in `src/diff.rs`). -/
structure EnhancedDiffLine where
  content : String
  line_type : DiffLineType
  file_path : Option String
  old_line_num : Option Nat
  new_line_num : Option Nat
  word_changes : List WordChange
deriving DecidableEq

/-- The span-emitting loop over `diff.iter_all_changes()` in
`compute_word_changes` (`src/diff.rs`): running removed-side and added-side
offsets, one span pushed per change on the sides it belongs to. -/
def spanLoop : List Change → Nat → Nat → List WordChange × List WordChange
  | [], _, _ => ([], [])
  | c :: cs, rem_pos, add_pos =>
    let len := c.value.length
    match c.tag with
    | ChangeTag.Equal =>
      let r := spanLoop cs (rem_pos + len) (add_pos + len)
      (⟨rem_pos, rem_pos + len, false⟩ :: r.1, ⟨add_pos, add_pos + len, false⟩ :: r.2)
    | ChangeTag.Delete =>
      let r := spanLoop cs (rem_pos + len) add_pos
      (⟨rem_pos, rem_pos + len, true⟩ :: r.1, r.2)
    | ChangeTag.Insert =>
      let r := spanLoop cs rem_pos (add_pos + len)
      (r.1, ⟨add_pos, add_pos + len, true⟩ :: r.2)

/-- Model of `compute_word_changes` (`src/diff.rs`).  The `similar` crate's
`TextDiff::from_words` is abstracted as the parameter `wd`; only a run of
exactly one removed and one added line receives spans. -/
def compute_word_changes (wd : String → String → List Change)
    (result : List EnhancedDiffLine)
    (removed added : List (Nat × String)) : List EnhancedDiffLine :=
  match removed, added with
  | [(rem_idx, rem_text)], [(add_idx, add_text)] =>
    let spans := spanLoop (wd rem_text add_text) 0 0
    let result :=
      match result.get? rem_idx with
      | some l => result.set rem_idx { l with word_changes := spans.1 }
      | none => result
    match result.get? add_idx with
    | some l => result.set add_idx { l with word_changes := spans.2 }
    | none => result
  | _, _ => result

/-- Model of `parse_hunk_header` (`src/diff.rs`): split on whitespace, require
at least three fields, strip sign prefixes, take the part before the first
comma, default each unparsable start to 1. -/
def parse_hunk_header (line : String) : Option (Nat × Nat) :=
  match splitWhitespaceR line with
  | _ :: p1 :: p2 :: _ =>
    let old_part := dropLeadingChar '-' p1
    let new_part := dropLeadingChar '+' p2
    let old_start := (((splitOnR old_part ",").head?).bind parseU32).getD 1
    let new_start := (((splitOnR new_part ",").head?).bind parseU32).getD 1
    some (old_start, new_start)
  | _ => none

/-- Parser state of `parse_diff_enhanced`: accumulated lines, current file,
running counters, and the buffered removed/added run. -/
structure PState where
  result : List EnhancedDiffLine
  current_file : Option String
  old_line_num : Nat
  new_line_num : Nat
  pending_removed : List (Nat × String)
  pending_added : List (Nat × String)
deriving DecidableEq

/-- Flush the buffered removed/added run into word-change spans and clear it. -/
def eflush (wd : String → String → List Change) (st : PState) : PState :=
  { st with
    result := compute_word_changes wd st.result st.pending_removed st.pending_added
    pending_removed := []
    pending_added := [] }

/-- Append one parsed line to the accumulated result. -/
def epush (st : PState) (e : EnhancedDiffLine) : PState :=
  { st with result := st.result ++ [e] }

/-- The branch dispatch of one `parse_diff_enhanced` loop iteration
(`src/diff.rs`): classify `line`, flush the buffered run where the source
does, update the counters and the current file, and append the table entry. -/
def ebranch (wd : String → String → List Change) (st : PState) (line : String) :
    PState :=
    if startsWithR line "diff --git" then
      let st := eflush wd st
      let cf :=
        match (splitOnR line " b/").get? 1 with
        | some b_path => some b_path
        | none => st.current_file
      epush { st with current_file := cf }
        ⟨line, DiffLineType.FileHeader, cf, none, none, []⟩
    else if startsWithR line "---" then
      let st := eflush wd st
      epush st ⟨line, DiffLineType.OldFile, st.current_file, none, none, []⟩
    else if startsWithR line "+++" then
      epush st ⟨line, DiffLineType.NewFile, st.current_file, none, none, []⟩
    else if startsWithR line "@@" then
      let st := eflush wd st
      let st :=
        match parse_hunk_header line with
        | some p => { st with old_line_num := p.1, new_line_num := p.2 }
        | none => st
      epush st ⟨line, DiffLineType.Hunk, st.current_file, none, none, []⟩
    else if startsWithR line "+" then
      let stripped := dropCharsR line 1
      let st := { st with pending_added := st.pending_added ++ [(st.result.length, stripped)] }
      epush { st with new_line_num := st.new_line_num + 1 }
        ⟨line, DiffLineType.Added, st.current_file, none, some st.new_line_num, []⟩
    else if startsWithR line "-" then
      let stripped := dropCharsR line 1
      let st := { st with pending_removed := st.pending_removed ++ [(st.result.length, stripped)] }
      epush { st with old_line_num := st.old_line_num + 1 }
        ⟨line, DiffLineType.Removed, st.current_file, some st.old_line_num, none, []⟩
    else if startsWithR line "\\" then
      epush st ⟨line, DiffLineType.NoNewline, st.current_file, none, none, []⟩
    else
      let st := eflush wd st
      epush { st with old_line_num := st.old_line_num + 1, new_line_num := st.new_line_num + 1 }
        ⟨line, DiffLineType.Context, st.current_file, some st.old_line_num,
          some st.new_line_num, []⟩

/-- One loop iteration of `parse_diff_enhanced` (`src/diff.rs`) on `line`:
the branch dispatch followed by the look-ahead flush (compute the buffered
word changes when the next raw line continues neither a plus nor a minus
run). -/
def estep (wd : String → String → List Change) (st : PState) (line : String)
    (next? : Option String) : PState :=
  let st1 := ebranch wd st line
  let next_continues :=
    match next? with
    | some next => startsWithR next "+" || startsWithR next "-"
    | none => false
  if !next_continues && (!st1.pending_removed.isEmpty || !st1.pending_added.isEmpty) then
    eflush wd st1
  else st1

/-- The main loop of `parse_diff_enhanced` over the line list. -/
def ego (wd : String → String → List Change) : PState → List String → PState
  | st, [] => st
  | st, l :: ls => ego wd (estep wd st l ls.head?) ls

/-- Initial parser state. -/
def initPState : PState := ⟨[], none, 0, 0, [], []⟩

/-- Model of `parse_diff_enhanced` (`src/diff.rs`): run the loop over the
input's lines, then perform the final flush. -/
def parse_diff_enhanced (wd : String → String → List Change) (diff : String) :
    List EnhancedDiffLine :=
  let st := ego wd initPState (rustLines diff)
  compute_word_changes wd st.result st.pending_removed st.pending_added

/-- The delta size ceiling (`DELTA_DIFF_SIZE_LIMIT` in `src/diff.rs`). -/
def DELTA_DIFF_SIZE_LIMIT : Nat := 100000

/-- Model of `is_too_large_for_delta` (`src/diff.rs`): the input's byte length
exceeds the ceiling. -/
def is_too_large_for_delta (diff : String) : Bool :=
  decide (DELTA_DIFF_SIZE_LIMIT < diff.utf8ByteSize)

/-- Model of `run_delta` (`src/diff.rs`).  The subprocess invocation
(spawn, write, wait with timeout) is abstracted as `spawn`; the `Bool`
component records whether the external process was spawned at all. -/
def run_delta (spawn : String → Nat → Option String) (diff : String)
    (width : Nat) : Option String × Bool :=
  if is_too_large_for_delta diff then (none, false)
  else (spawn diff width, true)

end Diff

namespace Tui

/-- Line kinds of the built-in parser (`DiffLineType` in `src/tui.rs`). -/
inductive DiffLineType where
  | Header
  | Hunk
  | Added
  | Removed
  | Context
  | Other
deriving DecidableEq

/-- A line of the built-in line table (`DiffLine` in `src/tui.rs`):
`line_number` is the new-file number, `old_line_number` the old-file one. -/
structure DiffLine where
  file_path : Option String
  line_number : Option Nat
  old_line_number : Option Nat
  line_type : DiffLineType
deriving DecidableEq

/-- A line of the delta line-info table (`DeltaLineInfo` in `src/tui.rs`). -/
structure DeltaLineInfo where
  file_path : Option String
  old_line_number : Option Nat
  new_line_number : Option Nat
deriving DecidableEq

/-- The old-start extraction of `parse_diff`'s hunk branch (`src/tui.rs`): the
text after the first `-`, up to the first comma, parsed as `u32`. -/
def parse_hunk_old_opt (line : String) : Option Nat :=
  ((splitOnR line "-").get? 1).bind (fun minus_part =>
    (((splitOnR minus_part ",").head?).orElse
      (fun _ => (splitOnR minus_part " ").head?)).bind parseU32)

/-- The new-start extraction of `parse_diff`'s hunk branch (`src/tui.rs`),
analogous to `parse_hunk_old_opt` with `+`. -/
def parse_hunk_new_opt (line : String) : Option Nat :=
  ((splitOnR line "+").get? 1).bind (fun plus_part =>
    (((splitOnR plus_part ",").head?).orElse
      (fun _ => (splitOnR plus_part " ").head?)).bind parseU32)

/-- The old-counter update of `parse_diff`'s hunk branch: on extraction
failure the counter is left unchanged. -/
def parse_hunk_old (line : String) (old : Nat) : Nat :=
  (parse_hunk_old_opt line).getD old

/-- The new-counter update of `parse_diff`'s hunk branch: on extraction
failure the counter is left unchanged. -/
def parse_hunk_new (line : String) (new : Nat) : Nat :=
  (parse_hunk_new_opt line).getD new

/-- Parser state of the built-in `parse_diff`. -/
structure BState where
  result : List DiffLine
  current_file : Option String
  old_line_num : Nat
  new_line_num : Nat
deriving DecidableEq

/-- One loop iteration of `parse_diff` (`src/tui.rs`) on a single line. -/
def bstep (st : BState) (line : String) : BState :=
  if startsWithR line "diff --git" then
    let cf :=
      match (splitOnR line " b/").get? 1 with
      | some b_path => some b_path
      | none => st.current_file
    { st with current_file := cf
              result := st.result ++ [⟨cf, none, none, DiffLineType.Header⟩] }
  else if startsWithR line "+++" || startsWithR line "---" then
    { st with result := st.result ++ [⟨st.current_file, none, none, DiffLineType.Header⟩] }
  else if startsWithR line "@@" then
    let o := parse_hunk_old line st.old_line_num
    let n := parse_hunk_new line st.new_line_num
    { st with old_line_num := o, new_line_num := n
              result := st.result ++ [⟨st.current_file, none, none, DiffLineType.Hunk⟩] }
  else if startsWithR line "+" && !startsWithR line "+++" then
    { st with new_line_num := st.new_line_num + 1
              result := st.result ++
                [⟨st.current_file, some st.new_line_num, none, DiffLineType.Added⟩] }
  else if startsWithR line "-" && !startsWithR line "---" then
    { st with old_line_num := st.old_line_num + 1
              result := st.result ++
                [⟨st.current_file, none, some st.old_line_num, DiffLineType.Removed⟩] }
  else if startsWithR line " " || (!startsWithR line "\\" && !(line = "")) then
    { st with old_line_num := st.old_line_num + 1, new_line_num := st.new_line_num + 1
              result := st.result ++
                [⟨st.current_file, some st.new_line_num, some st.old_line_num,
                  DiffLineType.Context⟩] }
  else
    { st with result := st.result ++ [⟨st.current_file, none, none, DiffLineType.Other⟩] }

/-- The main loop of `parse_diff` over the line list. -/
def bgo : BState → List String → BState
  | st, [] => st
  | st, l :: ls => bgo (bstep st l) ls

/-- Initial state of the built-in parser. -/
def initBState : BState := ⟨[], none, 0, 0⟩

/-- Model of `parse_diff` (`src/tui.rs`), the built-in rendering path's line
table used for line-comment targeting. -/
def parse_diff (diff : String) : List DiffLine :=
  (bgo initBState (rustLines diff)).result

/-- Character-level body of `strip_ansi_codes` (`src/tui.rs`), written as a
two-state scanner: in the escape state characters are consumed up to and
including the first ASCII-alphabetic one. -/
def strip_ansi_go : Bool → List Char → List Char
  | _, [] => []
  | true, c :: cs => if c.isAlpha then strip_ansi_go false cs else strip_ansi_go true cs
  | false, c :: cs =>
    if c = '\x1b' then strip_ansi_go true cs else c :: strip_ansi_go false cs

/-- Model of `strip_ansi_codes` (`src/tui.rs`). -/
def strip_ansi_codes (s : String) : String :=
  String.mk (strip_ansi_go false s.data)

/-- The file paths extracted from the raw diff at the start of
`parse_delta_output` (`src/tui.rs`). -/
def known_files_of (raw_diff : String) : List String :=
  (rustLines raw_diff).filterMap (fun line =>
    if startsWithR line "diff --git" then (splitOnR line " b/").get? 1 else none)

/-- The line-number extraction of `parse_delta_output` (`src/tui.rs`) on one
color-stripped line: unified mode on a `⋮` separator, side-by-side mode on a
leading `│`, hunk-echo mode on a `<integer>:` prefix. -/
def parse_delta_nums (clean : String) : Option Nat × Option Nat :=
  match splitOnR clean "⋮" with
  | before_sep :: r :: rs =>
    let after_sep := intercalateR "⋮" (r :: rs)
    let old_num := ((splitWhitespaceR before_sep).getLast?).bind parseU32
    let new_num :=
      match splitOnR after_sep "│" with
      | before_pipe :: _ :: _ => ((splitWhitespaceR before_pipe).head?).bind parseU32
      | _ => ((splitWhitespaceR after_sep).head?).bind parseU32
    (old_num, new_num)
  | _ =>
    if startsWithR clean "│" then
      let parts := splitOnR clean "│"
      let old_num :=
        if 2 ≤ parts.length then (parts.get? 1).bind (fun s => parseU32 (trimR s)) else none
      let new_num :=
        if 4 ≤ parts.length then (parts.get? 3).bind (fun s => parseU32 (trimR s)) else none
      (old_num, new_num)
    else
      match splitOnR clean ":" with
      | before_colon :: _ :: _ =>
        match parseU32 (trimR before_colon) with
        | some v => (some v, some v)
        | none => (none, none)
      | _ => (none, none)

/-- The per-line loop of `parse_delta_output`, carrying the current file. -/
def pdo_go (known : List String) : Option String → List String → List DeltaLineInfo
  | _, [] => []
  | cf, l :: ls =>
    let clean := strip_ansi_codes l
    let trimmed := trimR clean
    let cf :=
      match known.find? (fun f => trimmed == f || endsWithR trimmed f) with
      | some f => some f
      | none => cf
    let nums := parse_delta_nums clean
    ⟨cf, nums.1, nums.2⟩ :: pdo_go known cf ls

/-- Model of `parse_delta_output` (`src/tui.rs`): scan delta's color-stripped
output, tracking file headers against the raw diff's known paths and parsing
old/new numbers per line. -/
def parse_delta_output (delta_output raw_diff : String) : List DeltaLineInfo :=
  pdo_go (known_files_of raw_diff) none (rustLines delta_output)

/-- Model of `advance_search_idx` (`src/tui.rs`). -/
def advance_search_idx (current total : Nat) : Nat :=
  (current + 1) % total

/-- Model of `retreat_search_idx` (`src/tui.rs`). -/
def retreat_search_idx (current total : Nat) : Nat :=
  if current = 0 then total - 1 else current - 1

/-- Model of `format_search_status` (`src/tui.rs`). -/
def format_search_status (idx total : Nat) (query : String) : String :=
  "Match " ++ toString (idx + 1) ++ "/" ++ toString total ++ " for \x27" ++ query ++ "\x27"

/-- The two views of the application (`View` in `src/tui.rs`). -/
inductive View where
  | List
  | Detail
deriving DecidableEq

/-- The detail tabs (`DetailTab` in `src/tui.rs`). -/
inductive DetailTab where
  | Description
  | Diff
  | Comments
deriving DecidableEq

/-- The input modes (`InputMode` in `src/tui.rs`). -/
inductive InputMode where
  | Normal
  | Comment
  | LineComment
  | ConfirmApprove
  | ConfirmClose
  | ConfirmMerge
  | Search
  | ListSearch
  | GotoLine
deriving DecidableEq

/-- Which file version a line comment targets (`CommentSide` in `src/tui.rs`). -/
inductive CommentSide where
  | Left
  | Right
deriving DecidableEq

/-- A resolved line-comment target (`LineCommentContext` in `src/tui.rs`). -/
structure LineCommentContext where
  file_path : String
  line_number : Nat
  side : CommentSide
deriving DecidableEq

/-- PR summary metadata, reduced to the fields the modelled operations read
(`PullRequest` in `src/gh.rs`; title, repository and author feed only status
strings and list search). -/
structure PullRequest where
  number : Nat
  title : String
  repo_name : String
  author : String
deriving DecidableEq

/-- A PR comment (`Comment` in `src/gh.rs`), reduced to an opaque payload for
the cache model. -/
structure Comment where
  author : String
  body : String
deriving DecidableEq

/-- Tagged results delivered through the async result queue (`AsyncResult` in
`src/tui.rs`). -/
inductive AsyncResult where
  | Diff : Nat → String → Option String → AsyncResult
  | Comments : Nat → List Comment → AsyncResult
  | ClaudeLaunch : Except String String → AsyncResult
  | Refresh : List PullRequest → AsyncResult

/-- The application state (`App` in `src/tui.rs`), restricted to the fields
the modelled operations read or write.  `list_selected` models
`list_state.selected()`; the wall-clock `status_time` is omitted (real time),
and the channel endpoints are replaced by explicit queue arguments. -/
structure App where
  prs : List PullRequest
  include_drafts : Bool
  list_selected : Option Nat
  view : View
  detail_tab : DetailTab
  scroll_offset : Nat
  diff_cache : Option String
  delta_cache : Option String
  use_delta : Bool
  diff_lines : List DiffLine
  delta_line_info : List DeltaLineInfo
  comments_cache : Option (List Comment)
  input_mode : InputMode
  input_buffer : String
  line_comment_ctx : Option LineCommentContext
  search_query : String
  search_matches : List Nat
  search_match_idx : Nat
  status_message : Option String
  loading_diff : Bool
  loading_comments : Bool
  refreshing : Bool
  needs_clear : Bool
  launching_claude : Bool
deriving DecidableEq

/-- Model of `App::set_status` (the wall-clock timestamp is omitted). -/
def set_status (st : App) (msg : String) : App :=
  { st with status_message := some msg }

/-- Model of `App::selected_pr`. -/
def selected_pr (st : App) : Option PullRequest :=
  st.list_selected.bind (fun i => st.prs.get? i)

/-- Model of `App::exit_detail` (`src/tui.rs`). -/
def exit_detail (st : App) : App :=
  { st with view := View.List, scroll_offset := 0, diff_cache := none, delta_cache := none
            diff_lines := [], delta_line_info := [], comments_cache := none
            loading_diff := false, loading_comments := false, needs_clear := true
            search_query := "", search_matches := [], search_match_idx := 0 }

/-- Application of one drained result in `App::poll_async_results`
(`src/tui.rs`): the body of the match on the received `AsyncResult`. -/
def apply_async_result (st : App) (r : AsyncResult) : App :=
  match r with
  | AsyncResult.Diff idx diff delta_output =>
    let st :=
      if st.list_selected = some idx then
        let st := { st with diff_lines := parse_diff diff }
        let st :=
          match delta_output with
          | some delta => { st with delta_line_info := parse_delta_output delta diff }
          | none => { st with delta_line_info := [] }
        { st with diff_cache := some diff, delta_cache := delta_output }
      else st
    { st with loading_diff := false }
  | AsyncResult.Comments idx comments =>
    let st :=
      if st.list_selected = some idx then { st with comments_cache := some comments } else st
    { st with loading_comments := false }
  | AsyncResult.ClaudeLaunch res =>
    let st := { st with launching_claude := false, needs_clear := true }
    match res with
    | Except.ok path => set_status st ("Launched Claude in " ++ path)
    | Except.error e => set_status st ("Failed: " ++ e)
  | AsyncResult.Refresh prs =>
    let st := { st with refreshing := false, needs_clear := true }
    let count := prs.length
    let st := { st with prs := prs }
    let st :=
      if st.prs.isEmpty then { st with list_selected := none }
      else { st with list_selected := some 0 }
    let draft_status := if st.include_drafts then " (incl. drafts)" else ""
    set_status st ("Refreshed: " ++ toString count ++ " PRs" ++ draft_status)

/-- Model of `App::poll_async_results` (`src/tui.rs`): drain the queued
results in order, applying each. -/
def poll_async_results (st : App) (queue : List AsyncResult) : App :=
  queue.foldl apply_async_result st

/-- Model of `App::start_comment` (`src/tui.rs`). -/
def start_comment (st : App) : App :=
  { st with input_mode := InputMode.Comment, input_buffer := "" }

/-- Model of `App::start_line_comment` (`src/tui.rs`): resolve the display
line under the cursor to a `LineCommentContext`, via the delta line-info table
when delta rendering is active and the built-in line table otherwise. -/
def start_line_comment (st : App) : App :=
  if st.detail_tab ≠ DetailTab.Diff then start_comment st
  else
    let using_delta := st.use_delta && st.delta_cache.isSome
    let line_idx := st.scroll_offset
    if using_delta then
      match st.delta_line_info.get? line_idx with
      | some info =>
        match info.file_path with
        | some file_path =>
          match info.new_line_number with
          | some line_num =>
            { st with
              line_comment_ctx := some ⟨file_path, line_num, CommentSide.Right⟩
              input_mode := InputMode.LineComment, input_buffer := "" }
          | none =>
            match info.old_line_number with
            | some line_num =>
              { st with
                line_comment_ctx := some ⟨file_path, line_num, CommentSide.Left⟩
                input_mode := InputMode.LineComment, input_buffer := "" }
            | none =>
              set_status st "Cannot comment on this line. Move to a code line with line numbers."
        | none =>
          set_status st "Cannot comment on this line. Move to a code line with line numbers."
      | none =>
        set_status st "Cannot comment on this line. Move to a code line with line numbers."
    else
      match st.diff_lines.get? line_idx with
      | some diff_line =>
        match diff_line.file_path with
        | some file_path =>
          match diff_line.line_number with
          | some line_num =>
            { st with
              line_comment_ctx := some ⟨file_path, line_num, CommentSide.Right⟩
              input_mode := InputMode.LineComment, input_buffer := "" }
          | none =>
            match diff_line.old_line_number with
            | some line_num =>
              { st with
                line_comment_ctx := some ⟨file_path, line_num, CommentSide.Left⟩
                input_mode := InputMode.LineComment, input_buffer := "" }
            | none =>
              set_status st
                "Cannot comment on this line. Move to an added, removed, or context line."
        | none =>
          set_status st
            "Cannot comment on this line. Move to an added, removed, or context line."
      | none =>
        set_status st
          "Cannot comment on this line. Move to an added, removed, or context line."

/-- Model of `App::submit_line_comment` (`src/tui.rs`).  `gh_res` abstracts
the result of `gh::add_line_comment`; the returned `Bool` records whether that
collaborator call was made. -/
def submit_line_comment (st : App) (gh_res : Except String Unit) : App × Bool :=
  if trimR st.input_buffer = "" then
    ({ st with input_mode := InputMode.Normal, line_comment_ctx := none }, false)
  else
    match selected_pr st, st.line_comment_ctx with
    | some _pr, some ctx =>
      let st := { st with line_comment_ctx := none }
      let st :=
        match gh_res with
        | Except.ok _ =>
          let side_label := if ctx.side = CommentSide.Left then " (old)" else ""
          set_status st
            ("Comment added at " ++ ctx.file_path ++ ":" ++ toString ctx.line_number ++ side_label)
        | Except.error e => set_status st ("Error: " ++ e)
      ({ st with input_mode := InputMode.Normal, input_buffer := "" }, true)
    | _, _ =>
      ({ st with line_comment_ctx := none, input_mode := InputMode.Normal, input_buffer := "" },
        false)

/-- Model of `App::submit_comment` (`src/tui.rs`).  `gh_res` abstracts the
result of `gh::add_pr_comment`; the returned `Bool` records whether that
collaborator call was made. -/
def submit_comment (st : App) (gh_res : Except String Unit) : App × Bool :=
  if trimR st.input_buffer = "" then
    ({ st with input_mode := InputMode.Normal }, false)
  else
    match selected_pr st with
    | some _pr =>
      let st :=
        match gh_res with
        | Except.ok _ =>
          let st := set_status st "Comment added successfully"
          { st with comments_cache := none }
        | Except.error e => set_status st ("Error: " ++ e)
      ({ st with input_mode := InputMode.Normal, input_buffer := "" }, true)
    | none =>
      ({ st with input_mode := InputMode.Normal, input_buffer := "" }, false)

/-- Model of `App::confirm_approve` (`src/tui.rs`).  `gh_res` abstracts the
result of `gh::approve_pr`. -/
def confirm_approve (st : App) (gh_res : Except String Unit) : App :=
  let st :=
    match selected_pr st with
    | some pr =>
      match gh_res with
      | Except.ok _ =>
        let st := set_status st ("Approved PR #" ++ toString pr.number)
        match st.list_selected with
        | some idx =>
          let st := { st with prs := st.prs.eraseIdx idx }
          let st :=
            if st.prs.isEmpty then { st with list_selected := none, view := View.List }
            else if st.prs.length ≤ idx then
              { st with list_selected := some (st.prs.length - 1) }
            else st
          if st.view = View.Detail && !st.prs.isEmpty then
            { st with diff_cache := none, comments_cache := none }
          else if st.prs.isEmpty then { st with view := View.List }
          else st
        | none => st
      | Except.error e => set_status st ("Error: " ++ e)
    | none => st
  { st with input_mode := InputMode.Normal }

/-- Model of `App::confirm_close` (`src/tui.rs`).  `gh_res` abstracts the
result of `gh::close_pr` (whose optional comment argument is computed from the
input buffer). -/
def confirm_close (st : App) (gh_res : Except String Unit) : App :=
  let st :=
    match selected_pr st with
    | some pr =>
      match gh_res with
      | Except.ok _ =>
        let st := set_status st ("Closed PR #" ++ toString pr.number)
        let st :=
          match st.list_selected with
          | some idx =>
            let st := { st with prs := st.prs.eraseIdx idx }
            if !st.prs.isEmpty then
              { st with list_selected := some (min idx (st.prs.length - 1)) }
            else { st with list_selected := none }
          | none => st
        exit_detail st
      | Except.error e => set_status st ("Error: " ++ e)
    | none => st
  { st with input_mode := InputMode.Normal, input_buffer := "" }

/-- Model of `App::confirm_merge` (`src/tui.rs`).  `gh_res` abstracts the
result of `gh::merge_pr`, carrying the merge-type string on success. -/
def confirm_merge (st : App) (gh_res : Except String String) : App :=
  let st :=
    match selected_pr st with
    | some pr =>
      match gh_res with
      | Except.ok merge_type =>
        let st :=
          set_status st ("Merged PR #" ++ toString pr.number ++ " (" ++ merge_type ++ ")")
        let st :=
          match st.list_selected with
          | some idx =>
            let st := { st with prs := st.prs.eraseIdx idx }
            if !st.prs.isEmpty then
              { st with list_selected := some (min idx (st.prs.length - 1)) }
            else { st with list_selected := none }
          | none => st
        exit_detail st
      | Except.error e => set_status st ("Merge failed: " ++ e)
    | none => st
  { st with input_mode := InputMode.Normal }

/-- Scan for an occurrence of `needle` at any position of the haystack (the
computational core of the substring-containment model). -/
def containsSubR (needle : List Char) : List Char → Bool
  | [] => needle.isEmpty
  | c :: cs => isPrefixOfR needle (c :: cs) || containsSubR needle cs

/-- Model of Rust `str::contains(&str)`: substring containment. -/
def contains_str (s q : String) : Bool :=
  containsSubR q.data s.data

/-- Model of `App::execute_search` (`src/tui.rs`): scan the displayed content
(delta output if cached, otherwise the raw diff) case-insensitively for the
buffered query, building the ordered match-index list. -/
def execute_search (st : App) : App :=
  if st.input_buffer = "" then { st with input_mode := InputMode.Normal }
  else
    let st := { st with search_query := st.input_buffer, search_matches := [],
                        search_match_idx := 0 }
    let search_content := (st.delta_cache).orElse (fun _ => st.diff_cache)
    let st :=
      match search_content with
      | some content =>
        let query_lower := toLowerR st.search_query
        { st with search_matches :=
            (rustLines content).enum.filterMap (fun (p : Nat × String) =>
              let clean_line := strip_ansi_codes p.2
              if contains_str (toLowerR clean_line) query_lower then some p.1 else none) }
      | none => st
    let st := { st with input_mode := InputMode.Normal, input_buffer := "" }
    if st.search_matches.isEmpty then
      set_status st ("No matches for \x27" ++ st.search_query ++ "\x27")
    else
      let st := { st with scroll_offset := st.search_matches.headD 0 }
      set_status st (format_search_status 0 st.search_matches.length st.search_query)

/-- Iterated application of `advance_search_idx` (pressing next-match `k`
times with a fixed match count). -/
def advanceN : Nat → Nat → Nat → Nat
  | 0, current, _ => current
  | k + 1, current, total => advanceN k (advance_search_idx current total) total

end Tui

/-- A word-diff collaborator producing no changes; used to instantiate the
`similar`-crate parameter on concrete inputs. -/
def wdEmpty : String → String → List Diff.Change := fun _ _ => []

/-- The observable content of a built-in table line for the C1 comparison:
file association and old/new line numbers. -/
def projB (dl : Tui.DiffLine) : Option String × Option Nat × Option Nat :=
  (dl.file_path, dl.old_line_number, dl.line_number)

/-- The observable content of an enhanced table line for the C1 comparison. -/
def projE (l : Diff.EnhancedDiffLine) : Option String × Option Nat × Option Nat :=
  (l.file_path, l.old_line_num, l.new_line_num)

/-- Resolve a built-in table line to a line-comment target exactly as
`start_line_comment`'s built-in branch does: file required, new number with
side Right preferred, else old number with side Left. -/
def resolveB (dl : Tui.DiffLine) : Option (String × Nat × Tui.CommentSide) :=
  match dl.file_path with
  | some f =>
    match dl.line_number with
    | some n => some (f, n, Tui.CommentSide.Right)
    | none =>
      match dl.old_line_number with
      | some n => some (f, n, Tui.CommentSide.Left)
      | none => none
  | none => none

/-- Resolve an enhanced table line to a line-comment target with the same
preference (new number and Right first, else old number and Left). -/
def resolveE (l : Diff.EnhancedDiffLine) : Option (String × Nat × Tui.CommentSide) :=
  match l.file_path with
  | some f =>
    match l.new_line_num with
    | some n => some (f, n, Tui.CommentSide.Right)
    | none =>
      match l.old_line_num with
      | some n => some (f, n, Tui.CommentSide.Left)
      | none => none
  | none => none

/-- The two hunk-header parsers agree on this line: either both extract the
same start pair, or both fail to extract anything (and leave the running
counters unchanged). -/
def hunkAgreeB (line : String) : Bool :=
  match Tui.parse_hunk_old_opt line, Tui.parse_hunk_new_opt line,
      Diff.parse_hunk_header line with
  | some a, some c, some p => p.1 == a && p.2 == c
  | none, none, none => true
  | _, _, _ => false

/-- A line on which the built-in and the enhanced parser behave identically:
non-empty, and if it is a hunk-header line the two header parsers agree. -/
def goodLine (line : String) : Bool :=
  (!(line == "")) && (!(startsWithR line "@@") || hunkAgreeB line)

/-- The removed-side projection of a change sequence: the concatenated tokens
of its Equal and Delete changes.  The `similar` crate's documented contract is
that this reconstructs the old text. -/
def remProj : List Diff.Change → List Char
  | [] => []
  | c :: cs =>
    match c.tag with
    | Diff.ChangeTag.Insert => remProj cs
    | _ => c.value.data ++ remProj cs

/-- The added-side projection of a change sequence: the concatenated tokens of
its Equal and Insert changes. -/
def addProj : List Diff.Change → List Char
  | [] => []
  | c :: cs =>
    match c.tag with
    | Diff.ChangeTag.Delete => addProj cs
    | _ => c.value.data ++ addProj cs

/-- The spans form a contiguous chain from position `p`: each span starts
where the previous one ended and does not run backwards. -/
def spansChainB : Nat → List Diff.WordChange → Bool
  | _, [] => true
  | p, w :: ws =>
    (w.start == p) && decide (w.start ≤ w.endIdx) && spansChainB w.endIdx ws

/-- The concatenation of the text slices delimited by the spans. -/
def sliceConcat (t : List Char) : List Diff.WordChange → List Char
  | [] => []
  | w :: ws => (t.drop w.start).take (w.endIdx - w.start) ++ sliceConcat t ws

theorem spanLoop_fst_chain (cs : List Diff.Change) :
    ∀ (rp ap : Nat), spansChainB rp (Diff.spanLoop cs rp ap).1 = true := by
  induction cs with
  | nil => intro rp ap; rfl
  | cons c cs ih =>
    intro rp ap
    obtain ⟨tag, v⟩ := c
    cases tag <;> simp [Diff.spanLoop, spansChainB, ih, Nat.le_add_right]

theorem spanLoop_snd_chain (cs : List Diff.Change) :
    ∀ (rp ap : Nat), spansChainB ap (Diff.spanLoop cs rp ap).2 = true := by
  induction cs with
  | nil => intro rp ap; rfl
  | cons c cs ih =>
    intro rp ap
    obtain ⟨tag, v⟩ := c
    cases tag <;> simp [Diff.spanLoop, spansChainB, ih, Nat.le_add_right]

theorem spanLoop_fst_reconstruct (cs : List Diff.Change) :
    ∀ (rp ap : Nat) (t : List Char), remProj cs = t.drop rp →
      sliceConcat t (Diff.spanLoop cs rp ap).1 = t.drop rp := by
  induction cs with
  | nil => intro rp ap t h; exact h
  | cons c cs ih =>
    intro rp ap t h
    obtain ⟨tag, v⟩ := c
    cases tag with
    | Insert => exact ih rp (ap + v.length) t h
    | Equal =>
      have hsplit : v.data ++ remProj cs = t.drop rp := h
      have hdrop : remProj cs = t.drop (rp + v.length) := by
        have hdl := congrArg (List.drop v.data.length) hsplit
        rw [List.drop_left, List.drop_drop] at hdl
        exact hdl
      have htake : (t.drop rp).take v.length = v.data := by
        rw [← hsplit]
        exact List.take_left' rfl
      show (t.drop rp).take (rp + v.length - rp) ++
          sliceConcat t (Diff.spanLoop cs (rp + v.length) (ap + v.length)).1 = t.drop rp
      rw [Nat.add_sub_cancel_left, htake, ih (rp + v.length) (ap + v.length) t hdrop,
        ← hsplit, hdrop]
    | Delete =>
      have hsplit : v.data ++ remProj cs = t.drop rp := h
      have hdrop : remProj cs = t.drop (rp + v.length) := by
        have hdl := congrArg (List.drop v.data.length) hsplit
        rw [List.drop_left, List.drop_drop] at hdl
        exact hdl
      have htake : (t.drop rp).take v.length = v.data := by
        rw [← hsplit]
        exact List.take_left' rfl
      show (t.drop rp).take (rp + v.length - rp) ++
          sliceConcat t (Diff.spanLoop cs (rp + v.length) ap).1 = t.drop rp
      rw [Nat.add_sub_cancel_left, htake, ih (rp + v.length) ap t hdrop, ← hsplit, hdrop]

theorem spanLoop_snd_reconstruct (cs : List Diff.Change) :
    ∀ (rp ap : Nat) (t : List Char), addProj cs = t.drop ap →
      sliceConcat t (Diff.spanLoop cs rp ap).2 = t.drop ap := by
  induction cs with
  | nil => intro rp ap t h; exact h
  | cons c cs ih =>
    intro rp ap t h
    obtain ⟨tag, v⟩ := c
    cases tag with
    | Delete => exact ih (rp + v.length) ap t h
    | Equal =>
      have hsplit : v.data ++ addProj cs = t.drop ap := h
      have hdrop : addProj cs = t.drop (ap + v.length) := by
        have hdl := congrArg (List.drop v.data.length) hsplit
        rw [List.drop_left, List.drop_drop] at hdl
        exact hdl
      have htake : (t.drop ap).take v.length = v.data := by
        rw [← hsplit]
        exact List.take_left' rfl
      show (t.drop ap).take (ap + v.length - ap) ++
          sliceConcat t (Diff.spanLoop cs (rp + v.length) (ap + v.length)).2 = t.drop ap
      rw [Nat.add_sub_cancel_left, htake, ih (rp + v.length) (ap + v.length) t hdrop,
        ← hsplit, hdrop]
    | Insert =>
      have hsplit : v.data ++ addProj cs = t.drop ap := h
      have hdrop : addProj cs = t.drop (ap + v.length) := by
        have hdl := congrArg (List.drop v.data.length) hsplit
        rw [List.drop_left, List.drop_drop] at hdl
        exact hdl
      have htake : (t.drop ap).take v.length = v.data := by
        rw [← hsplit]
        exact List.take_left' rfl
      show (t.drop ap).take (ap + v.length - ap) ++
          sliceConcat t (Diff.spanLoop cs rp (ap + v.length)).2 = t.drop ap
      rw [Nat.add_sub_cancel_left, htake, ih rp (ap + v.length) t hdrop, ← hsplit, hdrop]

theorem spansChainB_mem (p : Nat) (ws : List Diff.WordChange)
    (h : spansChainB p ws = true) :
    ∀ w ∈ ws, p ≤ w.start ∧ w.start ≤ w.endIdx := by
  induction ws generalizing p with
  | nil => intro w hw; exact absurd hw (List.not_mem_nil w)
  | cons w ws ih =>
    simp only [spansChainB, Bool.and_eq_true, beq_iff_eq, decide_eq_true_eq] at h
    obtain ⟨⟨hstart, hle⟩, hrest⟩ := h
    intro x hx
    rcases List.mem_cons.mp hx with rfl | hx
    · exact ⟨Nat.le_of_eq hstart.symm, hle⟩
    · have hx2 := ih w.endIdx hrest x hx
      exact ⟨le_trans (le_trans (Nat.le_of_eq hstart.symm) hle) hx2.1, hx2.2⟩

theorem spansChainB_pairwise (p : Nat) (ws : List Diff.WordChange)
    (h : spansChainB p ws = true) :
    List.Pairwise (fun u v => u.endIdx ≤ v.start) ws := by
  induction ws generalizing p with
  | nil => exact List.Pairwise.nil
  | cons w ws ih =>
    simp only [spansChainB, Bool.and_eq_true, beq_iff_eq, decide_eq_true_eq] at h
    obtain ⟨⟨hstart, hle⟩, hrest⟩ := h
    exact List.Pairwise.cons (fun x hx => (spansChainB_mem w.endIdx ws hrest x hx).1)
      (ih w.endIdx hrest)

theorem spansChainB_pairwise_start (p : Nat) (ws : List Diff.WordChange)
    (h : spansChainB p ws = true) :
    List.Pairwise (fun u v => u.start ≤ v.start) ws :=
  (spansChainB_pairwise p ws h).imp_of_mem
    (fun {a b} ha _ hr => le_trans (spansChainB_mem p ws h a ha).2 hr)

/-- Claim C5: for a buffered run of exactly one removed and one added line,
the spans `compute_word_changes` stores on each side form a contiguous,
ordered, non-overlapping chain whose slices concatenate back to that side's
full text — given the word-diff collaborator's contract that its Equal/Delete
tokens concatenate to the removed text and its Equal/Insert tokens to the
added text. -/
theorem c5_word_change_spans (wd : String → String → List Diff.Change)
    (remText addText : String) (res : List Diff.EnhancedDiffLine)
    (rem_idx add_idx : Nat)
    (hr : rem_idx < res.length) (ha : add_idx < res.length) (hne : rem_idx ≠ add_idx)
    (hremP : remProj (wd remText addText) = remText.data)
    (haddP : addProj (wd remText addText) = addText.data) :
    (((Diff.compute_word_changes wd res [(rem_idx, remText)] [(add_idx, addText)]).get?
        rem_idx).map Diff.EnhancedDiffLine.word_changes) =
      some (Diff.spanLoop (wd remText addText) 0 0).1 ∧
    (((Diff.compute_word_changes wd res [(rem_idx, remText)] [(add_idx, addText)]).get?
        add_idx).map Diff.EnhancedDiffLine.word_changes) =
      some (Diff.spanLoop (wd remText addText) 0 0).2 ∧
    spansChainB 0 (Diff.spanLoop (wd remText addText) 0 0).1 = true ∧
    spansChainB 0 (Diff.spanLoop (wd remText addText) 0 0).2 = true ∧
    List.Pairwise (fun u v => u.start ≤ v.start)
      (Diff.spanLoop (wd remText addText) 0 0).1 ∧
    List.Pairwise (fun u v => u.start ≤ v.start)
      (Diff.spanLoop (wd remText addText) 0 0).2 ∧
    List.Pairwise (fun u v => u.endIdx ≤ v.start)
      (Diff.spanLoop (wd remText addText) 0 0).1 ∧
    List.Pairwise (fun u v => u.endIdx ≤ v.start)
      (Diff.spanLoop (wd remText addText) 0 0).2 ∧
    sliceConcat remText.data (Diff.spanLoop (wd remText addText) 0 0).1 = remText.data ∧
    sliceConcat addText.data (Diff.spanLoop (wd remText addText) 0 0).2 = addText.data := by
  obtain ⟨lr, hlr⟩ : ∃ lr, res.get? rem_idx = some lr := ⟨_, List.get?_eq_get hr⟩
  obtain ⟨la, hla⟩ : ∃ la, res.get? add_idx = some la := ⟨_, List.get?_eq_get ha⟩
  have hla1 : (res.set rem_idx
      { lr with word_changes := (Diff.spanLoop (wd remText addText) 0 0).1 }).get? add_idx =
      some la := by
    rw [List.get?_eq_getElem?, List.getElem?_set_ne hne, ← List.get?_eq_getElem?]
    exact hla
  have hcw : Diff.compute_word_changes wd res [(rem_idx, remText)] [(add_idx, addText)] =
      (res.set rem_idx
        { lr with word_changes := (Diff.spanLoop (wd remText addText) 0 0).1 }).set add_idx
        { la with word_changes := (Diff.spanLoop (wd remText addText) 0 0).2 } := by
    unfold Diff.compute_word_changes
    simp only [hlr, hla1]
  have hchain1 := spanLoop_fst_chain (wd remText addText) 0 0
  have hchain2 := spanLoop_snd_chain (wd remText addText) 0 0
  refine ⟨?_, ?_, hchain1, hchain2,
    spansChainB_pairwise_start 0 _ hchain1, spansChainB_pairwise_start 0 _ hchain2,
    spansChainB_pairwise 0 _ hchain1, spansChainB_pairwise 0 _ hchain2, ?_, ?_⟩
  · rw [hcw, List.get?_eq_getElem?, List.getElem?_set_ne (Ne.symm hne),
      List.getElem?_set_self (by simpa using hr)]
    rfl
  · rw [hcw, List.get?_eq_getElem?,
      List.getElem?_set_self (by simpa using ha)]
    rfl
  · have := spanLoop_fst_reconstruct (wd remText addText) 0 0 remText.data
      (by simpa using hremP)
    simpa using this
  · have := spanLoop_snd_reconstruct (wd remText addText) 0 0 addText.data
      (by simpa using haddP)
    simpa using this

/-- A concrete word-diff result for the specification's `old` to `new`
scenario: one Delete token and one Insert token, no common word. -/
def wdOldNew : String → String → List Diff.Change := fun _ _ =>
  [⟨Diff.ChangeTag.Delete, "old"⟩, ⟨Diff.ChangeTag.Insert, "new"⟩]

/-- The enhanced table for the one-removed/one-added run the C5 witness
instantiates. -/
def resOldNew : List Diff.EnhancedDiffLine :=
  [⟨"-old", Diff.DiffLineType.Removed, some "f.rs", some 1, none, []⟩,
   ⟨"+new", Diff.DiffLineType.Added, some "f.rs", none, some 1, []⟩]

/-- Witness for C5 at the specification's `old` to `new` scenario. -/
theorem c5_word_change_spans_witness :
    (((Diff.compute_word_changes wdOldNew resOldNew [(0, "old")] [(1, "new")]).get? 0).map
        Diff.EnhancedDiffLine.word_changes) =
      some (Diff.spanLoop (wdOldNew "old" "new") 0 0).1 ∧
    (((Diff.compute_word_changes wdOldNew resOldNew [(0, "old")] [(1, "new")]).get? 1).map
        Diff.EnhancedDiffLine.word_changes) =
      some (Diff.spanLoop (wdOldNew "old" "new") 0 0).2 ∧
    spansChainB 0 (Diff.spanLoop (wdOldNew "old" "new") 0 0).1 = true ∧
    spansChainB 0 (Diff.spanLoop (wdOldNew "old" "new") 0 0).2 = true ∧
    List.Pairwise (fun u v => u.start ≤ v.start) (Diff.spanLoop (wdOldNew "old" "new") 0 0).1 ∧
    List.Pairwise (fun u v => u.start ≤ v.start) (Diff.spanLoop (wdOldNew "old" "new") 0 0).2 ∧
    List.Pairwise (fun u v => u.endIdx ≤ v.start) (Diff.spanLoop (wdOldNew "old" "new") 0 0).1 ∧
    List.Pairwise (fun u v => u.endIdx ≤ v.start) (Diff.spanLoop (wdOldNew "old" "new") 0 0).2 ∧
    sliceConcat ("old").data (Diff.spanLoop (wdOldNew "old" "new") 0 0).1 = ("old").data ∧
    sliceConcat ("new").data (Diff.spanLoop (wdOldNew "old" "new") 0 0).2 = ("new").data :=
  c5_word_change_spans wdOldNew "old" "new" resOldNew 0 1
    (by decide) (by decide) (by decide) (by decide) (by decide)

/-- A concrete application state for instantiating the state-machine
theorems. -/
def app0 : Tui.App where
  prs := [⟨1, "Fix parser", "repo", "alice"⟩]
  include_drafts := false
  list_selected := some 0
  view := Tui.View.Detail
  detail_tab := Tui.DetailTab.Diff
  scroll_offset := 0
  diff_cache := none
  delta_cache := none
  use_delta := false
  diff_lines := []
  delta_line_info := []
  comments_cache := none
  input_mode := Tui.InputMode.Normal
  input_buffer := ""
  line_comment_ctx := none
  search_query := ""
  search_matches := []
  search_match_idx := 0
  status_message := none
  loading_diff := false
  loading_comments := false
  refreshing := false
  needs_clear := false
  launching_claude := false

theorem utf8ByteSize_go_replicate (n : Nat) (c : Char) :
    String.utf8ByteSize.go (List.replicate n c) = n * c.utf8Size := by
  induction n with
  | zero => exact (Nat.zero_mul _).symm
  | succ k ih =>
    show String.utf8ByteSize.go (List.replicate k c) + c.utf8Size = (k + 1) * c.utf8Size
    rw [ih, Nat.succ_mul]

theorem utf8ByteSize_mk_replicate (n : Nat) (c : Char) :
    (String.mk (List.replicate n c)).utf8ByteSize = n * c.utf8Size :=
  utf8ByteSize_go_replicate n c

/-- A 150000-byte diff (all ASCII), above the delta size ceiling. -/
def bigDiff : String := String.mk (List.replicate 150000 'a')

/-- A diff of exactly 100000 bytes, at the delta size ceiling. -/
def boundaryDiff : String := String.mk (List.replicate 100000 'a')

/-- Claim C6: a diff whose byte length exceeds 100000 makes the external
renderer adapter return `None` without spawning the delta process, while a
diff of exactly 100000 bytes is not skipped by the size ceiling. -/
theorem c6_delta_size_ceiling (spawn : String → Nat → Option String)
    (diff diffb : String) (width : Nat)
    (h : 100000 < diff.utf8ByteSize) (hb : diffb.utf8ByteSize = 100000) :
    Diff.run_delta spawn diff width = (none, false) ∧
    Diff.run_delta spawn diffb width = (spawn diffb width, true) := by
  constructor
  · simp [Diff.run_delta, Diff.is_too_large_for_delta, Diff.DELTA_DIFF_SIZE_LIMIT, h]
  · simp [Diff.run_delta, Diff.is_too_large_for_delta, Diff.DELTA_DIFF_SIZE_LIMIT, hb]

/-- Witness for C6 at a concrete 150000-byte diff and a concrete
100000-byte diff. -/
theorem c6_delta_size_ceiling_witness :
    100000 < bigDiff.utf8ByteSize ∧ boundaryDiff.utf8ByteSize = 100000 ∧
    Diff.run_delta (fun _ _ => some "rendered") bigDiff 80 = (none, false) ∧
    Diff.run_delta (fun _ _ => some "rendered") boundaryDiff 80 = (some "rendered", true) := by
  have hbig : bigDiff.utf8ByteSize = 150000 := by
    show (String.mk (List.replicate 150000 'a')).utf8ByteSize = 150000
    rw [utf8ByteSize_mk_replicate, show Char.utf8Size 'a' = 1 from rfl]
  have hbound : boundaryDiff.utf8ByteSize = 100000 := by
    show (String.mk (List.replicate 100000 'a')).utf8ByteSize = 100000
    rw [utf8ByteSize_mk_replicate, show Char.utf8Size 'a' = 1 from rfl]
  have h := c6_delta_size_ceiling (fun _ _ => some "rendered") bigDiff boundaryDiff 80
    (by omega) hbound
  exact ⟨by omega, hbound, h.1, h.2⟩

/-- Claim C10: submitting a comment or a line comment whose buffer trims to
empty makes no collaborator call, returns the input mode to Normal, sets no
status message, and (for a line comment) discards the pending target; nothing
else of the state changes. -/
theorem c10_blank_submit_noop (st : Tui.App) (res1 res2 : Except String Unit)
    (h : trimR st.input_buffer = "") :
    Tui.submit_line_comment st res1 =
      ({ st with input_mode := Tui.InputMode.Normal, line_comment_ctx := none }, false) ∧
    Tui.submit_comment st res2 =
      ({ st with input_mode := Tui.InputMode.Normal }, false) := by
  constructor
  · simp [Tui.submit_line_comment, h]
  · simp [Tui.submit_comment, h]

/-- Witness for C10 at a whitespace-only buffer with a pending target. -/
theorem c10_blank_submit_noop_witness :
    trimR "  " = "" ∧
    Tui.submit_line_comment
        { app0 with input_buffer := "  ",
                    line_comment_ctx := some ⟨"f.rs", 3, Tui.CommentSide.Right⟩ }
        (Except.ok ()) =
      ({ { app0 with input_buffer := "  ",
                     line_comment_ctx := some ⟨"f.rs", 3, Tui.CommentSide.Right⟩ } with
          input_mode := Tui.InputMode.Normal, line_comment_ctx := none }, false) ∧
    Tui.submit_comment { app0 with input_buffer := " \t " } (Except.ok ()) =
      ({ { app0 with input_buffer := " \t " } with
          input_mode := Tui.InputMode.Normal }, false) := by
  refine ⟨by decide, ?_, ?_⟩
  · exact (c10_blank_submit_noop
      { app0 with input_buffer := "  ",
                  line_comment_ctx := some ⟨"f.rs", 3, Tui.CommentSide.Right⟩ }
      (Except.ok ()) (Except.ok ()) (by decide)).1
  · exact (c10_blank_submit_noop { app0 with input_buffer := " \t " }
      (Except.ok ()) (Except.ok ()) (by decide)).2

/-- Claim C4: a diff result tagged with a PR index other than the selected one
only clears the loading-diff flag, leaving every cache (diff text, delta
output, parsed line tables, comments) unchanged; a stale comments result only
clears the loading-comments flag. -/
theorem c4_stale_result_frame (st : Tui.App) (idx : Nat) (diff : String)
    (delta : Option String) (comments : List Tui.Comment)
    (h : st.list_selected ≠ some idx) :
    Tui.apply_async_result st (Tui.AsyncResult.Diff idx diff delta) =
      { st with loading_diff := false } ∧
    Tui.apply_async_result st (Tui.AsyncResult.Comments idx comments) =
      { st with loading_comments := false } := by
  constructor
  · simp [Tui.apply_async_result, h]
  · simp [Tui.apply_async_result, h]

/-- Witness for C4: PR 1's diff and comments results arrive while PR 0 is
selected. -/
theorem c4_stale_result_frame_witness :
    (app0.list_selected ≠ some 1) ∧
    Tui.apply_async_result { app0 with loading_diff := true }
        (Tui.AsyncResult.Diff 1 "diff text" (some "delta text")) =
      { { app0 with loading_diff := true } with loading_diff := false } ∧
    Tui.apply_async_result { app0 with loading_comments := true }
        (Tui.AsyncResult.Comments 1 [⟨"bob", "lgtm"⟩]) =
      { { app0 with loading_comments := true } with loading_comments := false } := by
  refine ⟨by decide, ?_, ?_⟩
  · exact (c4_stale_result_frame { app0 with loading_diff := true } 1 "diff text"
      (some "delta text") [⟨"bob", "lgtm"⟩] (by decide)).1
  · exact (c4_stale_result_frame { app0 with loading_comments := true } 1 "diff text"
      (some "delta text") [⟨"bob", "lgtm"⟩] (by decide)).2

/-- Claim C7: when the collaborator action behind confirm-approve,
confirm-close or confirm-merge fails, the PR list, the selection and every
cache are untouched; the whole state change is the error status message plus
the confirmation dialog closing (input mode back to Normal, and for close the
dialog's buffer clearing, as on every outcome of the dialog). -/
theorem c7_action_failure_frame (st : Tui.App) (pr : Tui.PullRequest) (e : String)
    (hsel : Tui.selected_pr st = some pr) :
    Tui.confirm_approve st (Except.error e) =
      { st with status_message := some ("Error: " ++ e),
                input_mode := Tui.InputMode.Normal } ∧
    Tui.confirm_close st (Except.error e) =
      { st with status_message := some ("Error: " ++ e),
                input_mode := Tui.InputMode.Normal, input_buffer := "" } ∧
    Tui.confirm_merge st (Except.error e) =
      { st with status_message := some ("Merge failed: " ++ e),
                input_mode := Tui.InputMode.Normal } := by
  refine ⟨?_, ?_, ?_⟩
  · simp [Tui.confirm_approve, hsel, Tui.set_status]
  · simp [Tui.confirm_close, hsel, Tui.set_status]
  · simp [Tui.confirm_merge, hsel, Tui.set_status]

/-- Witness for C7 at a concrete selected PR and a concrete error. -/
theorem c7_action_failure_frame_witness :
    Tui.selected_pr { app0 with input_mode := Tui.InputMode.ConfirmApprove } =
      some ⟨1, "Fix parser", "repo", "alice"⟩ ∧
    Tui.confirm_approve { app0 with input_mode := Tui.InputMode.ConfirmApprove }
        (Except.error "boom") =
      { { app0 with input_mode := Tui.InputMode.ConfirmApprove } with
          status_message := some ("Error: " ++ "boom"),
          input_mode := Tui.InputMode.Normal } ∧
    Tui.confirm_close { app0 with input_mode := Tui.InputMode.ConfirmApprove }
        (Except.error "boom") =
      { { app0 with input_mode := Tui.InputMode.ConfirmApprove } with
          status_message := some ("Error: " ++ "boom"),
          input_mode := Tui.InputMode.Normal, input_buffer := "" } ∧
    Tui.confirm_merge { app0 with input_mode := Tui.InputMode.ConfirmApprove }
        (Except.error "boom") =
      { { app0 with input_mode := Tui.InputMode.ConfirmApprove } with
          status_message := some ("Merge failed: " ++ "boom"),
          input_mode := Tui.InputMode.Normal } := by
  have h := c7_action_failure_frame { app0 with input_mode := Tui.InputMode.ConfirmApprove }
    ⟨1, "Fix parser", "repo", "alice"⟩ "boom" (by decide)
  exact ⟨by decide, h.1, h.2.1, h.2.2⟩

/-- Claim C9: when a line comment is started in the diff tab on a display line
that resolves to a file path, the constructed target uses the new-file number
with side Right whenever a new-file number is present, and the old-file number
with side Left only when an old-file number is present without a new-file one;
in both the delta and the built-in addressing paths. -/
theorem c9_line_comment_side_preference (st : Tui.App)
    (h : st.detail_tab = Tui.DetailTab.Diff) :
    ((st.use_delta && st.delta_cache.isSome) = true →
      ∀ info f n, st.delta_line_info.get? st.scroll_offset = some info →
        info.file_path = some f → info.new_line_number = some n →
        Tui.start_line_comment st =
          { st with line_comment_ctx := some ⟨f, n, Tui.CommentSide.Right⟩,
                    input_mode := Tui.InputMode.LineComment, input_buffer := "" }) ∧
    ((st.use_delta && st.delta_cache.isSome) = true →
      ∀ info f n, st.delta_line_info.get? st.scroll_offset = some info →
        info.file_path = some f → info.new_line_number = none →
        info.old_line_number = some n →
        Tui.start_line_comment st =
          { st with line_comment_ctx := some ⟨f, n, Tui.CommentSide.Left⟩,
                    input_mode := Tui.InputMode.LineComment, input_buffer := "" }) ∧
    ((st.use_delta && st.delta_cache.isSome) = false →
      ∀ dl f n, st.diff_lines.get? st.scroll_offset = some dl →
        dl.file_path = some f → dl.line_number = some n →
        Tui.start_line_comment st =
          { st with line_comment_ctx := some ⟨f, n, Tui.CommentSide.Right⟩,
                    input_mode := Tui.InputMode.LineComment, input_buffer := "" }) ∧
    ((st.use_delta && st.delta_cache.isSome) = false →
      ∀ dl f n, st.diff_lines.get? st.scroll_offset = some dl →
        dl.file_path = some f → dl.line_number = none →
        dl.old_line_number = some n →
        Tui.start_line_comment st =
          { st with line_comment_ctx := some ⟨f, n, Tui.CommentSide.Left⟩,
                    input_mode := Tui.InputMode.LineComment, input_buffer := "" }) := by
  refine ⟨?_, ?_, ?_, ?_⟩
  · intro hd info f n hget hf hn
    rw [List.get?_eq_getElem?] at hget
    simp [Tui.start_line_comment, h, hd, hget, hf, hn]
  · intro hd info f n hget hf hn ho
    rw [List.get?_eq_getElem?] at hget
    simp [Tui.start_line_comment, h, hd, hget, hf, hn, ho]
  · intro hd dl f n hget hf hn
    rw [List.get?_eq_getElem?] at hget
    simp [Tui.start_line_comment, h, hd, hget, hf, hn]
  · intro hd dl f n hget hf hn ho
    rw [List.get?_eq_getElem?] at hget
    simp [Tui.start_line_comment, h, hd, hget, hf, hn, ho]

theorem epush_result (st : Diff.PState) (e : Diff.EnhancedDiffLine) :
    (Diff.epush st e).result = st.result ++ [e] := rfl

theorem isPrefixOfR_cons {a : Char} {pre l : List Char}
    (h : isPrefixOfR (a :: pre) l = true) :
    ∃ t, l = a :: t ∧ isPrefixOfR pre t = true := by
  cases l with
  | nil => exact absurd h (by simp [isPrefixOfR])
  | cons b bs =>
    simp only [isPrefixOfR, Bool.and_eq_true, beq_iff_eq] at h
    exact ⟨bs, by rw [h.1], h.2⟩

theorem isPrefixOfR_false_of_head_ne {a b : Char} (pre t : List Char)
    (hne : (a == b) = false) :
    isPrefixOfR (a :: pre) (b :: t) = false := by
  simp [isPrefixOfR, hne]

/-- A line starting with `@@` starts with none of the other prefixes the two
diff parsers test before the hunk branch. -/
theorem hunk_line_excludes (line : String) (h : startsWithR line "@@" = true) :
    startsWithR line "diff --git" = false ∧ startsWithR line "---" = false ∧
    startsWithR line "+++" = false := by
  unfold startsWithR at h ⊢
  obtain ⟨t, ht, -⟩ := isPrefixOfR_cons h
  rw [ht]
  refine ⟨?_, ?_, ?_⟩
  · exact isPrefixOfR_false_of_head_ne _ _ (by decide)
  · exact isPrefixOfR_false_of_head_ne _ _ (by decide)
  · exact isPrefixOfR_false_of_head_ne _ _ (by decide)

/-- A word-change-only update of one table entry is invisible to any
projection that ignores `word_changes`. -/
theorem map_set_wc {β : Type} (f : Diff.EnhancedDiffLine → β)
    (hf : ∀ l s, f { l with word_changes := s } = f l)
    (res : List Diff.EnhancedDiffLine) (i : Nat) (s : List Diff.WordChange) :
    ((match res.get? i with
      | some l => res.set i { l with word_changes := s }
      | none => res).map f) = res.map f := by
  induction res generalizing i with
  | nil => cases i <;> rfl
  | cons x xs ih =>
    cases i with
    | zero => simp [List.set, hf]
    | succ j =>
      show ((match xs.get? j with
        | some l => (x :: xs).set (j + 1) { l with word_changes := s }
        | none => x :: xs).map f) = (x :: xs).map f
      cases hx : xs.get? j with
      | none => rfl
      | some l =>
        have := ih j
        rw [hx] at this
        simp only [List.set, List.map_cons, this]

/-- `compute_word_changes` changes at most the `word_changes` field of table
entries: every projection ignoring that field is preserved. -/
theorem compute_word_changes_map {β : Type} (f : Diff.EnhancedDiffLine → β)
    (hf : ∀ l s, f { l with word_changes := s } = f l)
    (wd : String → String → List Diff.Change) (res : List Diff.EnhancedDiffLine)
    (rem add : List (Nat × String)) :
    (Diff.compute_word_changes wd res rem add).map f = res.map f := by
  unfold Diff.compute_word_changes
  split
  · exact (map_set_wc f hf _ _ _).trans (map_set_wc f hf _ _ _)
  · rfl

theorem compute_word_changes_length (wd : String → String → List Diff.Change)
    (res : List Diff.EnhancedDiffLine) (rem add : List (Nat × String)) :
    (Diff.compute_word_changes wd res rem add).length = res.length := by
  have h := compute_word_changes_map (fun _ => (0 : Nat)) (fun _ _ => rfl) wd res rem add
  calc (Diff.compute_word_changes wd res rem add).length
      = ((Diff.compute_word_changes wd res rem add).map (fun _ => (0 : Nat))).length :=
        (List.length_map _ _).symm
    _ = (res.map (fun _ => (0 : Nat))).length := by rw [h]
    _ = res.length := List.length_map _ _

/-- Claim C3, counterexample: the malformed hunk header `"@@ x"` (it begins
with `@@` and no start integers can be parsed from it) does NOT reset the
running counters to the fallback 1 — `parse_hunk_header` yields `none` because
the line has fewer than three whitespace fields, and the following context
line still carries the previous hunk's counters 5 and 7, not 1 and 1. -/
theorem c3_hunk_fallback_counterexample :
    startsWithR "@@ x" "@@" = true ∧
    Diff.parse_hunk_header "@@ x" = none ∧
    (Diff.parse_diff_enhanced wdEmpty "@@ -5,2 +7,2 @@\n@@ x\n z").length = 3 ∧
    ((Diff.parse_diff_enhanced wdEmpty "@@ -5,2 +7,2 @@\n@@ x\n z").get? 2).map
        Diff.EnhancedDiffLine.old_line_num = some (some 5) ∧
    ((Diff.parse_diff_enhanced wdEmpty "@@ -5,2 +7,2 @@\n@@ x\n z").get? 2).map
        Diff.EnhancedDiffLine.new_line_num = some (some 7) ∧
    some (some (5 : Nat)) ≠ some (some 1) ∧ some (some (7 : Nat)) ≠ some (some 1) := by
  decide

/-- Claim C3 as amended: a malformed hunk-header line never fails the parse —
the line is recorded as a Hunk entry with no numbers and parsing continues —
and the counters fall back to 1 exactly when the line still has at least three
whitespace-separated fields whose two start tokens fail to parse; with fewer
than three fields the counters are left unchanged instead. -/
theorem c3_hunk_fallback_amended (wd : String → String → List Diff.Change)
    (st : Diff.PState) (line : String) (next? : Option String)
    (h : startsWithR line "@@" = true) :
    (∀ p0 p1 p2 rest, splitWhitespaceR line = p0 :: p1 :: p2 :: rest →
      ((splitOnR (dropLeadingChar '-' p1) ",").head?).bind parseU32 = none →
      ((splitOnR (dropLeadingChar '+' p2) ",").head?).bind parseU32 = none →
      (Diff.estep wd st line next?).old_line_num = 1 ∧
      (Diff.estep wd st line next?).new_line_num = 1) ∧
    ((splitWhitespaceR line).length < 3 →
      (Diff.estep wd st line next?).old_line_num = st.old_line_num ∧
      (Diff.estep wd st line next?).new_line_num = st.new_line_num) ∧
    (Diff.estep wd st line next?).result.length = st.result.length + 1 ∧
    (Diff.estep wd st line next?).result.get? st.result.length =
      some ⟨line, Diff.DiffLineType.Hunk, st.current_file, none, none, []⟩ := by
  obtain ⟨hdg, hmm, hpp⟩ := hunk_line_excludes line h
  have hstep : Diff.estep wd st line next? =
      Diff.epush
        (match Diff.parse_hunk_header line with
         | some p => { Diff.eflush wd st with old_line_num := p.1, new_line_num := p.2 }
         | none => Diff.eflush wd st)
        ⟨line, Diff.DiffLineType.Hunk, st.current_file, none, none, []⟩ := by
    cases hh : Diff.parse_hunk_header line with
    | none =>
      simp [Diff.estep, Diff.ebranch, hdg, hmm, hpp, h, hh, Diff.eflush, Diff.epush]
    | some p =>
      simp [Diff.estep, Diff.ebranch, hdg, hmm, hpp, h, hh, Diff.eflush, Diff.epush]
  refine ⟨?_, ?_, ?_, ?_⟩
  · intro p0 p1 p2 rest hsplit hfail1 hfail2
    have hhdr : Diff.parse_hunk_header line = some (1, 1) := by
      unfold Diff.parse_hunk_header
      rw [hsplit]
      simp [hfail1, hfail2]
    rw [hstep, hhdr]
    exact ⟨rfl, rfl⟩
  · intro hshort
    have hhdr : Diff.parse_hunk_header line = none := by
      unfold Diff.parse_hunk_header
      match hs : splitWhitespaceR line with
      | [] => rfl
      | [_] => rfl
      | [_, _] => rfl
      | p0 :: p1 :: p2 :: rest =>
        rw [hs] at hshort
        simp only [List.length_cons] at hshort
        exact absurd hshort (by omega)
    rw [hstep, hhdr]
    exact ⟨rfl, rfl⟩
  · have hres : (match Diff.parse_hunk_header line with
        | some p => { Diff.eflush wd st with old_line_num := p.1, new_line_num := p.2 }
        | none => Diff.eflush wd st).result = (Diff.eflush wd st).result := by
      split <;> rfl
    rw [hstep, epush_result, List.length_append, hres]
    simp [Diff.eflush, compute_word_changes_length]
  · have hres : (match Diff.parse_hunk_header line with
        | some p => { Diff.eflush wd st with old_line_num := p.1, new_line_num := p.2 }
        | none => Diff.eflush wd st).result = (Diff.eflush wd st).result := by
      split <;> rfl
    rw [hstep, epush_result, hres]
    have hlen : (Diff.eflush wd st).result.length = st.result.length := by
      simp [Diff.eflush, compute_word_changes_length]
    rw [← hlen]
    exact List.get?_concat_length _ _

/-- The C2 invariant on a single table entry: which of the two line-number
fields are set, as a function of the line kind. -/
def lineNumsOK (l : Diff.EnhancedDiffLine) : Bool :=
  match l.line_type with
  | Diff.DiffLineType.Added => l.old_line_num.isNone && l.new_line_num.isSome
  | Diff.DiffLineType.Removed => l.old_line_num.isSome && l.new_line_num.isNone
  | Diff.DiffLineType.Context => l.old_line_num.isSome && l.new_line_num.isSome
  | _ => l.old_line_num.isNone && l.new_line_num.isNone

theorem mem_compute_word_changes (wd : String → String → List Diff.Change)
    (res : List Diff.EnhancedDiffLine) (rem add : List (Nat × String))
    (x : Diff.EnhancedDiffLine) (hx : x ∈ Diff.compute_word_changes wd res rem add) :
    ∃ y ∈ res, (y.line_type, y.old_line_num, y.new_line_num) =
      (x.line_type, x.old_line_num, x.new_line_num) := by
  have hmap := compute_word_changes_map
    (fun l => (l.line_type, l.old_line_num, l.new_line_num)) (fun _ _ => rfl) wd res rem add
  have hmem : (x.line_type, x.old_line_num, x.new_line_num) ∈
      res.map (fun l => (l.line_type, l.old_line_num, l.new_line_num)) := by
    rw [← hmap]
    exact List.mem_map_of_mem _ hx
  obtain ⟨y, hy, hyx⟩ := List.mem_map.mp hmem
  exact ⟨y, hy, hyx⟩

theorem lineNumsOK_of_same_nums (x y : Diff.EnhancedDiffLine)
    (h : (y.line_type, y.old_line_num, y.new_line_num) =
      (x.line_type, x.old_line_num, x.new_line_num))
    (hy : lineNumsOK y = true) : lineNumsOK x = true := by
  have h1 : y.line_type = x.line_type := congrArg Prod.fst h
  have h2 : y.old_line_num = x.old_line_num := congrArg (fun p => p.2.1) h
  have h3 : y.new_line_num = x.new_line_num := congrArg (fun p => p.2.2) h
  unfold lineNumsOK at hy ⊢
  rw [← h1, ← h2, ← h3]
  exact hy

theorem eflush_lineNumsOK (wd : String → String → List Diff.Change)
    (st : Diff.PState) (hst : ∀ l ∈ st.result, lineNumsOK l = true) :
    ∀ l ∈ (Diff.eflush wd st).result, lineNumsOK l = true := by
  intro x hx
  obtain ⟨y, hy, hyx⟩ := mem_compute_word_changes wd st.result _ _ x hx
  exact lineNumsOK_of_same_nums x y hyx (hst y hy)

theorem epush_lineNumsOK (s : Diff.PState) (e : Diff.EnhancedDiffLine)
    (hs : ∀ l ∈ s.result, lineNumsOK l = true) (he : lineNumsOK e = true) :
    ∀ l ∈ (Diff.epush s e).result, lineNumsOK l = true := by
  intro l hl
  rw [epush_result] at hl
  rcases List.mem_append.mp hl with hmem | hmem
  · exact hs l hmem
  · rw [List.mem_singleton.mp hmem]; exact he

theorem ebranch_lineNumsOK (wd : String → String → List Diff.Change)
    (st : Diff.PState) (line : String)
    (hst : ∀ l ∈ st.result, lineNumsOK l = true) :
    ∀ l ∈ (Diff.ebranch wd st line).result, lineNumsOK l = true := by
  unfold Diff.ebranch
  split_ifs
  · exact epush_lineNumsOK _ _ (eflush_lineNumsOK wd st hst) rfl
  · exact epush_lineNumsOK _ _ (eflush_lineNumsOK wd st hst) rfl
  · exact epush_lineNumsOK _ _ hst rfl
  · refine epush_lineNumsOK _ _ ?_ rfl
    cases hph : Diff.parse_hunk_header line <;> simp only [hph] <;>
      exact eflush_lineNumsOK wd st hst
  · exact epush_lineNumsOK _ _ hst rfl
  · exact epush_lineNumsOK _ _ hst rfl
  · exact epush_lineNumsOK _ _ hst rfl
  · exact epush_lineNumsOK _ _ (eflush_lineNumsOK wd st hst) rfl

theorem flush_or_self_lineNumsOK (wd : String → String → List Diff.Change)
    (s : Diff.PState) (c : Bool)
    (hs : ∀ l ∈ s.result, lineNumsOK l = true) :
    ∀ l ∈ (if c = true then Diff.eflush wd s else s).result, lineNumsOK l = true := by
  cases c
  · simpa using hs
  · simpa using eflush_lineNumsOK wd s hs

theorem estep_lineNumsOK (wd : String → String → List Diff.Change)
    (st : Diff.PState) (line : String) (next? : Option String)
    (hst : ∀ l ∈ st.result, lineNumsOK l = true) :
    ∀ l ∈ (Diff.estep wd st line next?).result, lineNumsOK l = true := by
  have hbr := ebranch_lineNumsOK wd st line hst
  exact flush_or_self_lineNumsOK wd (Diff.ebranch wd st line) _ hbr

theorem ego_lineNumsOK (wd : String → String → List Diff.Change)
    (lines : List String) (st : Diff.PState)
    (hst : ∀ l ∈ st.result, lineNumsOK l = true) :
    ∀ l ∈ (Diff.ego wd st lines).result, lineNumsOK l = true := by
  induction lines generalizing st with
  | nil => exact hst
  | cons x xs ih =>
    exact ih (Diff.estep wd st x xs.head?) (estep_lineNumsOK wd st x xs.head? hst)

/-- Claim C2: in every table produced by the enhanced parser, Added lines set
exactly the new number, Removed lines exactly the old number, Context lines
both, and header/hunk/no-newline lines neither. -/
theorem c2_line_number_kind_invariant (wd : String → String → List Diff.Change)
    (diff : String) (l : Diff.EnhancedDiffLine)
    (hl : l ∈ Diff.parse_diff_enhanced wd diff) :
    (l.line_type = Diff.DiffLineType.Added →
      l.old_line_num = none ∧ l.new_line_num.isSome = true) ∧
    (l.line_type = Diff.DiffLineType.Removed →
      l.old_line_num.isSome = true ∧ l.new_line_num = none) ∧
    (l.line_type = Diff.DiffLineType.Context →
      l.old_line_num.isSome = true ∧ l.new_line_num.isSome = true) ∧
    ((l.line_type = Diff.DiffLineType.FileHeader ∨ l.line_type = Diff.DiffLineType.OldFile ∨
      l.line_type = Diff.DiffLineType.NewFile ∨ l.line_type = Diff.DiffLineType.Hunk ∨
      l.line_type = Diff.DiffLineType.NoNewline) →
      l.old_line_num = none ∧ l.new_line_num = none) := by
  have hOK : lineNumsOK l = true := by
    unfold Diff.parse_diff_enhanced at hl
    obtain ⟨y, hy, hyx⟩ := mem_compute_word_changes wd _ _ _ l hl
    have hego := ego_lineNumsOK wd (rustLines diff) Diff.initPState
      (by intro a ha; exact absurd ha (List.not_mem_nil a)) y hy
    exact lineNumsOK_of_same_nums l y hyx hego
  unfold lineNumsOK at hOK
  refine ⟨?_, ?_, ?_, ?_⟩
  · intro ht; rw [ht] at hOK
    simp only [Bool.and_eq_true, Option.isNone_iff_eq_none] at hOK
    exact ⟨hOK.1, hOK.2⟩
  · intro ht; rw [ht] at hOK
    simp only [Bool.and_eq_true, Option.isNone_iff_eq_none] at hOK
    exact ⟨hOK.1, hOK.2⟩
  · intro ht; rw [ht] at hOK
    simp only [Bool.and_eq_true] at hOK
    exact ⟨hOK.1, hOK.2⟩
  · intro ht
    rcases ht with ht | ht | ht | ht | ht <;> rw [ht] at hOK <;>
      simp only [Bool.and_eq_true, Option.isNone_iff_eq_none] at hOK <;>
      exact ⟨hOK.1, hOK.2⟩

/-- Witness for C2 at the specification's sample diff: the Removed line
carries exactly the old number 1. -/
theorem c2_line_number_kind_invariant_witness :
    (⟨"-old", Diff.DiffLineType.Removed, some "f.rs", some 1, none, []⟩ : Diff.EnhancedDiffLine) ∈
      Diff.parse_diff_enhanced wdEmpty
        "diff --git a/f.rs b/f.rs\n--- a/f.rs\n+++ b/f.rs\n@@ -1,2 +1,2 @@\n-old\n+new\n" ∧
    ((⟨"-old", Diff.DiffLineType.Removed, some "f.rs", some 1, none, []⟩ :
        Diff.EnhancedDiffLine).line_type = Diff.DiffLineType.Removed →
      (⟨"-old", Diff.DiffLineType.Removed, some "f.rs", some 1, none, []⟩ :
        Diff.EnhancedDiffLine).old_line_num.isSome = true ∧
      (⟨"-old", Diff.DiffLineType.Removed, some "f.rs", some 1, none, []⟩ :
        Diff.EnhancedDiffLine).new_line_num = none) := by
  refine ⟨by decide, ?_⟩
  exact (c2_line_number_kind_invariant wdEmpty
    "diff --git a/f.rs b/f.rs\n--- a/f.rs\n+++ b/f.rs\n@@ -1,2 +1,2 @@\n-old\n+new\n"
    ⟨"-old", Diff.DiffLineType.Removed, some "f.rs", some 1, none, []⟩ (by decide)).2.1

/-- Witness for the amended C3: both fallback cases at concrete malformed
headers, starting from counters (5, 7). -/
theorem c3_hunk_fallback_amended_witness :
    ((Diff.estep wdEmpty ⟨[], none, 5, 7, [], []⟩ "@@ -x,1 +y @@" none).old_line_num = 1 ∧
      (Diff.estep wdEmpty ⟨[], none, 5, 7, [], []⟩ "@@ -x,1 +y @@" none).new_line_num = 1) ∧
    ((Diff.estep wdEmpty ⟨[], none, 5, 7, [], []⟩ "@@ x" none).old_line_num = 5 ∧
      (Diff.estep wdEmpty ⟨[], none, 5, 7, [], []⟩ "@@ x" none).new_line_num = 7) ∧
    (Diff.estep wdEmpty ⟨[], none, 5, 7, [], []⟩ "@@ x" none).result.get? 0 =
      some ⟨"@@ x", Diff.DiffLineType.Hunk, none, none, none, []⟩ := by
  refine ⟨?_, ?_, ?_⟩
  · exact (c3_hunk_fallback_amended wdEmpty ⟨[], none, 5, 7, [], []⟩ "@@ -x,1 +y @@" none
      (by decide)).1 "@@" "-x,1" "+y" ["@@"] (by decide) (by decide) (by decide)
  · exact (c3_hunk_fallback_amended wdEmpty ⟨[], none, 5, 7, [], []⟩ "@@ x" none
      (by decide)).2.1 (by decide)
  · exact (c3_hunk_fallback_amended wdEmpty ⟨[], none, 5, 7, [], []⟩ "@@ x" none
      (by decide)).2.2.2

theorem filterMap_index_sublist (xs : List (Nat × String)) (g : Nat × String → Option Nat)
    (hg : ∀ p, g p = none ∨ g p = some p.1) :
    List.Sublist (xs.filterMap g) (xs.map Prod.fst) := by
  induction xs with
  | nil => simp
  | cons x xs ih =>
    rw [List.filterMap_cons, List.map_cons]
    rcases hg x with h | h
    · rw [h]; exact ih.cons _
    · rw [h]; exact ih.cons₂ _

theorem pairwise_lt_filterMap_enum (l : List String) (g : Nat × String → Option Nat)
    (hg : ∀ p, g p = none ∨ g p = some p.1) :
    List.Pairwise (· < ·) (l.enum.filterMap g) := by
  have hsub := filterMap_index_sublist l.enum g hg
  rw [List.enum_map_fst] at hsub
  exact List.Pairwise.sublist hsub (List.pairwise_lt_range _)

/-- The match list built by a non-empty-query search: the indices of the
content lines (color-stripped, lowercased) containing the query, or empty when
no content is cached. -/
theorem execute_search_matches_eq (st : Tui.App) (hq : ¬st.input_buffer = "") :
    (Tui.execute_search st).search_matches =
      match (st.delta_cache).orElse (fun _ => st.diff_cache) with
      | some content =>
        (rustLines content).enum.filterMap (fun (p : Nat × String) =>
          if Tui.contains_str (toLowerR (Tui.strip_ansi_codes p.2)) (toLowerR st.input_buffer)
          then some p.1 else none)
      | none => [] := by
  unfold Tui.execute_search
  rw [if_neg hq]
  cases horelse : (st.delta_cache).orElse (fun _ => st.diff_cache) with
  | none =>
    simp only [horelse, Tui.set_status]
    split <;> rfl
  | some content =>
    simp only [horelse, Tui.set_status]
    split <;> rfl

theorem advanceN_mod (k c t : Nat) (ht : 0 < t) (hc : c < t) :
    Tui.advanceN k c t = (c + k) % t := by
  induction k generalizing c with
  | zero => simp [Tui.advanceN, Nat.mod_eq_of_lt hc]
  | succ m ih =>
    rw [Tui.advanceN, Tui.advance_search_idx, ih ((c + 1) % t) (Nat.mod_lt _ ht),
      Nat.mod_add_mod]
    have harith : c + 1 + m = c + (m + 1) := by omega
    rw [harith]

/-- Claim C8: the match list built by executing a search is strictly
ascending, and with `n` matches the next-match operation applied `n` times
returns the pointer to its start, wrapping from the last index to 0, while
the previous-match operation wraps from 0 to the last index. -/
theorem c8_search_sorted_and_wraparound (st : Tui.App) (s : Nat)
    (hq : ¬st.input_buffer = "")
    (hne : (Tui.execute_search st).search_matches ≠ [])
    (hs : s < (Tui.execute_search st).search_matches.length) :
    List.Pairwise (· < ·) (Tui.execute_search st).search_matches ∧
    Tui.advanceN (Tui.execute_search st).search_matches.length s
      (Tui.execute_search st).search_matches.length = s ∧
    Tui.advance_search_idx ((Tui.execute_search st).search_matches.length - 1)
      (Tui.execute_search st).search_matches.length = 0 ∧
    Tui.retreat_search_idx 0 (Tui.execute_search st).search_matches.length =
      (Tui.execute_search st).search_matches.length - 1 := by
  have hn : 0 < (Tui.execute_search st).search_matches.length :=
    List.length_pos.mpr hne
  refine ⟨?_, ?_, ?_, ?_⟩
  · rw [execute_search_matches_eq st hq]
    cases horelse : (st.delta_cache).orElse (fun _ => st.diff_cache) with
    | none => exact List.Pairwise.nil
    | some content =>
      refine pairwise_lt_filterMap_enum _ _ (fun p => ?_)
      by_cases hcase :
          Tui.contains_str (toLowerR (Tui.strip_ansi_codes p.2))
            (toLowerR st.input_buffer) = true
      · right; simp [hcase]
      · left; simp [hcase]
  · rw [advanceN_mod _ s _ hn hs, Nat.add_mod_right, Nat.mod_eq_of_lt hs]
  · rw [Tui.advance_search_idx,
      show (Tui.execute_search st).search_matches.length - 1 + 1 =
        (Tui.execute_search st).search_matches.length by omega,
      Nat.mod_self]
  · simp [Tui.retreat_search_idx]

/-- Witness for C8 at a concrete search over a cached diff with two matching
lines. -/
theorem c8_search_sorted_and_wraparound_witness :
    List.Pairwise (· < ·)
      (Tui.execute_search
        { app0 with input_buffer := "ab", diff_cache := some "xAby\nqq\nab" }).search_matches ∧
    Tui.advanceN
      (Tui.execute_search
        { app0 with input_buffer := "ab", diff_cache := some "xAby\nqq\nab" }).search_matches.length
      1
      (Tui.execute_search
        { app0 with input_buffer := "ab", diff_cache := some "xAby\nqq\nab" }).search_matches.length
      = 1 ∧
    Tui.advance_search_idx
      ((Tui.execute_search
        { app0 with input_buffer := "ab", diff_cache := some "xAby\nqq\nab" }).search_matches.length - 1)
      (Tui.execute_search
        { app0 with input_buffer := "ab", diff_cache := some "xAby\nqq\nab" }).search_matches.length
      = 0 ∧
    Tui.retreat_search_idx 0
      (Tui.execute_search
        { app0 with input_buffer := "ab", diff_cache := some "xAby\nqq\nab" }).search_matches.length
      = (Tui.execute_search
        { app0 with input_buffer := "ab", diff_cache := some "xAby\nqq\nab" }).search_matches.length - 1 :=
  c8_search_sorted_and_wraparound
    { app0 with input_buffer := "ab", diff_cache := some "xAby\nqq\nab" } 1
    (by decide) (by decide) (by decide)

/-- Resolve an observable line triple (file, old number, new number) to a
line-comment target with the new-number/Right preference. -/
def resolveT : Option String × Option Nat × Option Nat →
    Option (String × Nat × Tui.CommentSide)
  | (some f, _, some n) => some (f, n, Tui.CommentSide.Right)
  | (some f, some n, none) => some (f, n, Tui.CommentSide.Left)
  | _ => none

theorem resolveB_eq_resolveT (dl : Tui.DiffLine) : resolveB dl = resolveT (projB dl) := by
  obtain ⟨f, n, o, k⟩ := dl
  cases f <;> cases n <;> cases o <;> rfl

theorem resolveE_eq_resolveT (el : Diff.EnhancedDiffLine) :
    resolveE el = resolveT (projE el) := by
  obtain ⟨c, k, f, o, n, w⟩ := el
  cases f <;> cases n <;> cases o <;> rfl

/-- The joint invariant of the C1 comparison: the two parser states agree on
the current file, both running counters, and the observable content of every
table entry produced so far. -/
def StatesAgree (b : Tui.BState) (e : Diff.PState) : Prop :=
  b.current_file = e.current_file ∧ b.old_line_num = e.old_line_num ∧
  b.new_line_num = e.new_line_num ∧ b.result.map projB = e.result.map projE

theorem cw_map_projE (wd : String → String → List Diff.Change)
    (res : List Diff.EnhancedDiffLine) (rem add : List (Nat × String)) :
    (Diff.compute_word_changes wd res rem add).map projE = res.map projE :=
  compute_word_changes_map projE (fun _ _ => rfl) wd res rem add

theorem eflush_agree (wd : String → String → List Diff.Change)
    (b : Tui.BState) (e : Diff.PState) (h : StatesAgree b e) :
    StatesAgree b (Diff.eflush wd e) := by
  obtain ⟨hf, ho, hn, hres⟩ := h
  exact ⟨hf, ho, hn, by rw [hres]; exact (cw_map_projE wd _ _ _).symm⟩

theorem goodLine_spec (l : String) (h : goodLine l = true) :
    ¬(l = "") ∧ (startsWithR l "@@" = true → hunkAgreeB l = true) := by
  simp only [goodLine, Bool.and_eq_true] at h
  obtain ⟨h1, h2⟩ := h
  constructor
  · intro hl
    rw [hl] at h1
    exact absurd h1 (by decide)
  · intro hat
    rw [Bool.or_eq_true] at h2
    rcases h2 with hno | hyes
    · rw [hat] at hno
      exact absurd hno (by decide)
    · exact hyes

theorem backslash_not_space (l : String) (h : startsWithR l "\\" = true) :
    startsWithR l " " = false := by
  unfold startsWithR at h ⊢
  obtain ⟨t, ht, -⟩ := isPrefixOfR_cons h
  rw [ht]
  exact isPrefixOfR_false_of_head_ne _ _ (by decide)

/-- The two hunk-header counter updates coincide on a line the agreement
predicate accepts. -/
theorem hunkAgreeB_upd (line : String) (hag : hunkAgreeB line = true) (o n : Nat) :
    (Tui.parse_hunk_old line o, Tui.parse_hunk_new line n) =
      (match Diff.parse_hunk_header line with
       | some p => (p.1, p.2)
       | none => (o, n)) := by
  unfold hunkAgreeB at hag
  unfold Tui.parse_hunk_old Tui.parse_hunk_new
  cases h1 : Tui.parse_hunk_old_opt line <;> cases h2 : Tui.parse_hunk_new_opt line <;>
      cases h3 : Diff.parse_hunk_header line <;> rw [h1, h2, h3] at hag
  · rfl
  · exact absurd hag (by simp)
  · exact absurd hag (by simp)
  · exact absurd hag (by simp)
  · exact absurd hag (by simp)
  · exact absurd hag (by simp)
  · exact absurd hag (by simp)
  · rename_i a c p
    simp only [Bool.and_eq_true, beq_iff_eq] at hag
    simp [hag.1, hag.2]

/-- On a line the goodness predicate accepts, one built-in parser step and one
enhanced branch dispatch preserve agreement of the two parser states. -/
theorem bstep_ebranch_agree (wd : String → String → List Diff.Change)
    (b : Tui.BState) (e : Diff.PState) (line : String)
    (hem : ¬(line = ""))
    (hhk : startsWithR line "@@" = true → hunkAgreeB line = true)
    (hag : StatesAgree b e) :
    StatesAgree (Tui.bstep b line) (Diff.ebranch wd e line) := by
  obtain ⟨hf, ho, hn, hres⟩ := hag
  by_cases hdg : startsWithR line "diff --git" = true
  · cases hcf : (splitOnR line " b/").get? 1 with
    | some bp =>
      refine ⟨?_, ?_, ?_, ?_⟩ <;>
        simp [Tui.bstep, Diff.ebranch, hdg, hcf, Diff.epush, Diff.eflush, projB, projE,
          hf, ho, hn, hres, cw_map_projE]
    | none =>
      refine ⟨?_, ?_, ?_, ?_⟩ <;>
        simp [Tui.bstep, Diff.ebranch, hdg, hcf, Diff.epush, Diff.eflush, projB, projE,
          hf, ho, hn, hres, cw_map_projE]
  rw [Bool.not_eq_true] at hdg
  by_cases hm3 : startsWithR line "---" = true
  · refine ⟨?_, ?_, ?_, ?_⟩ <;>
      simp [Tui.bstep, Diff.ebranch, hdg, hm3, Diff.epush, Diff.eflush, projB, projE,
        hf, ho, hn, hres, cw_map_projE]
  rw [Bool.not_eq_true] at hm3
  by_cases hpp : startsWithR line "+++" = true
  · refine ⟨?_, ?_, ?_, ?_⟩ <;>
      simp [Tui.bstep, Diff.ebranch, hdg, hm3, hpp, Diff.epush, Diff.eflush, projB, projE,
        hf, ho, hn, hres, cw_map_projE]
  rw [Bool.not_eq_true] at hpp
  by_cases hat : startsWithR line "@@" = true
  · have hupd := hunkAgreeB_upd line (hhk hat) e.old_line_num e.new_line_num
    cases hph : Diff.parse_hunk_header line with
    | some p =>
      simp only [hph] at hupd
      have h1 : Tui.parse_hunk_old line e.old_line_num = p.1 := congrArg Prod.fst hupd
      have h2 : Tui.parse_hunk_new line e.new_line_num = p.2 := congrArg Prod.snd hupd
      refine ⟨?_, ?_, ?_, ?_⟩ <;>
        simp [Tui.bstep, Diff.ebranch, hdg, hm3, hpp, hat, hph, Diff.epush, Diff.eflush,
          projB, projE, hf, ho, hn, hres, cw_map_projE, h1, h2]
    | none =>
      simp only [hph] at hupd
      have h1 : Tui.parse_hunk_old line e.old_line_num = e.old_line_num :=
        congrArg Prod.fst hupd
      have h2 : Tui.parse_hunk_new line e.new_line_num = e.new_line_num :=
        congrArg Prod.snd hupd
      refine ⟨?_, ?_, ?_, ?_⟩ <;>
        simp [Tui.bstep, Diff.ebranch, hdg, hm3, hpp, hat, hph, Diff.epush, Diff.eflush,
          projB, projE, hf, ho, hn, hres, cw_map_projE, h1, h2]
  rw [Bool.not_eq_true] at hat
  by_cases hp : startsWithR line "+" = true
  · refine ⟨?_, ?_, ?_, ?_⟩ <;>
      simp [Tui.bstep, Diff.ebranch, hdg, hm3, hpp, hat, hp, Diff.epush, Diff.eflush,
        projB, projE, hf, ho, hn, hres, cw_map_projE]
  rw [Bool.not_eq_true] at hp
  by_cases hm : startsWithR line "-" = true
  · refine ⟨?_, ?_, ?_, ?_⟩ <;>
      simp [Tui.bstep, Diff.ebranch, hdg, hm3, hpp, hat, hp, hm, Diff.epush, Diff.eflush,
        projB, projE, hf, ho, hn, hres, cw_map_projE]
  rw [Bool.not_eq_true] at hm
  by_cases hbs : startsWithR line "\\" = true
  · have hsp := backslash_not_space line hbs
    refine ⟨?_, ?_, ?_, ?_⟩ <;>
      simp [Tui.bstep, Diff.ebranch, hdg, hm3, hpp, hat, hp, hm, hbs, hsp, Diff.epush,
        Diff.eflush, projB, projE, hf, ho, hn, hres, cw_map_projE]
  rw [Bool.not_eq_true] at hbs
  have hreal : decide (line = "") = false := decide_eq_false hem
  refine ⟨?_, ?_, ?_, ?_⟩ <;>
    simp [Tui.bstep, Diff.ebranch, hdg, hm3, hpp, hat, hp, hm, hbs, hreal, Diff.epush,
      Diff.eflush, projB, projE, hf, ho, hn, hres, cw_map_projE]

/-- Agreement is preserved by the optional look-ahead flush. -/
theorem agree_flush_or_self (wd : String → String → List Diff.Change)
    (b : Tui.BState) (e : Diff.PState) (c : Bool) (h : StatesAgree b e) :
    StatesAgree b (if c = true then Diff.eflush wd e else e) := by
  cases c
  · simpa using h
  · simpa using eflush_agree wd b e h

/-- Agreement is preserved by one full loop iteration of each parser. -/
theorem bstep_estep_agree (wd : String → String → List Diff.Change)
    (b : Tui.BState) (e : Diff.PState) (line : String) (next? : Option String)
    (hg : goodLine line = true) (hag : StatesAgree b e) :
    StatesAgree (Tui.bstep b line) (Diff.estep wd e line next?) := by
  obtain ⟨hem, hhk⟩ := goodLine_spec line hg
  have h1 := bstep_ebranch_agree wd b e line hem hhk hag
  exact agree_flush_or_self wd _ (Diff.ebranch wd e line) _ h1

/-- Agreement is preserved by the two main loops over a list of good lines. -/
theorem bgo_ego_agree (wd : String → String → List Diff.Change) (lines : List String) :
    ∀ (b : Tui.BState) (e : Diff.PState), (∀ l ∈ lines, goodLine l = true) →
      StatesAgree b e → StatesAgree (Tui.bgo b lines) (Diff.ego wd e lines) := by
  induction lines with
  | nil => intro b e _ h; exact h
  | cons x xs ih =>
    intro b e hg h
    exact ih _ _ (fun l hl => hg l (List.mem_cons_of_mem _ hl))
      (bstep_estep_agree wd b e x xs.head? (hg x (List.mem_cons_self _ _)) h)

theorem map_resolve_of_map_proj :
    ∀ (bs : List Tui.DiffLine) (es : List Diff.EnhancedDiffLine),
      bs.map projB = es.map projE → bs.map resolveB = es.map resolveE := by
  intro bs
  induction bs with
  | nil =>
    intro es h
    cases es with
    | nil => rfl
    | cons y ys => exact absurd h (by simp)
  | cons x xs ih =>
    intro es h
    cases es with
    | nil => exact absurd h (by simp)
    | cons y ys =>
      simp only [List.map_cons, List.cons.injEq] at h
      simp only [List.map_cons, List.cons.injEq]
      exact ⟨by rw [resolveB_eq_resolveT, resolveE_eq_resolveT, h.1], ih ys h.2⟩

/-- A diff on which the two parsers diverge: its first hunk header has no
comma-separated counts (legal unified-diff syntax the built-in parser fails to
read), and it contains an empty line inside the second hunk. -/
def exC1 : String := "diff --git a/f b/f\n@@ -1 +1 @@\n x\n@@ -8,1 +9,1 @@\n\n y"

/-- Claim C1, counterexample: the built-in `parse_diff` and the enhanced
`parse_diff_enhanced` disagree on the same display-line index.  At index 2
(the context line after the comma-less hunk header `@@ -1 +1 @@`) the built-in
table still carries counters 0/0 while the enhanced table carries 1/1; at
index 4 (an empty line inside a hunk) the built-in table has no numbers —
so no line-comment target resolves — while the enhanced table carries 8/9 and
resolves to (f, 9, Right). -/
theorem c1_equivalence_counterexample :
    ((Tui.parse_diff exC1).map projB).get? 2 = some (some "f", some 0, some 0) ∧
    ((Diff.parse_diff_enhanced wdEmpty exC1).map projE).get? 2 =
      some (some "f", some 1, some 1) ∧
    ((Tui.parse_diff exC1).map projB).get? 4 = some (some "f", none, none) ∧
    ((Diff.parse_diff_enhanced wdEmpty exC1).map projE).get? 4 =
      some (some "f", some 8, some 9) ∧
    ((Tui.parse_diff exC1).map resolveB).get? 4 = some none ∧
    ((Diff.parse_diff_enhanced wdEmpty exC1).map resolveE).get? 4 =
      some (some ("f", 9, Tui.CommentSide.Right)) ∧
    ((Tui.parse_diff exC1).map projB).get? 2 ≠
      ((Diff.parse_diff_enhanced wdEmpty exC1).map projE).get? 2 ∧
    ((Tui.parse_diff exC1).map resolveB).get? 4 ≠
      ((Diff.parse_diff_enhanced wdEmpty exC1).map resolveE).get? 4 := by
  refine ⟨by decide, by decide, by decide, by decide, by decide, by decide, by decide,
    by decide⟩

/-- Claim C1 as amended: on diff texts without empty lines and whose
`@@`-lines are ones where the two hunk-header parsers extract the same start
pair (or both extract nothing), the built-in and the enhanced tables agree at
every index on file association and old/new line numbers, and hence resolve
every display line to the same (file, line, side) target. -/
theorem c1_amended_table_equivalence (wd : String → String → List Diff.Change)
    (diff : String) (hgood : ∀ l ∈ rustLines diff, goodLine l = true) :
    (Tui.parse_diff diff).map projB = (Diff.parse_diff_enhanced wd diff).map projE ∧
    (Tui.parse_diff diff).map resolveB = (Diff.parse_diff_enhanced wd diff).map resolveE := by
  have hmain := bgo_ego_agree wd (rustLines diff) Tui.initBState Diff.initPState hgood
    ⟨rfl, rfl, rfl, rfl⟩
  have htab : (Tui.parse_diff diff).map projB =
      (Diff.parse_diff_enhanced wd diff).map projE := by
    simp only [Tui.parse_diff, Diff.parse_diff_enhanced]
    rw [cw_map_projE]
    exact hmain.2.2.2
  exact ⟨htab, map_resolve_of_map_proj _ _ htab⟩

/-- A well-formed diff (comma-separated hunk counts, no empty lines) for the
amended C1 witness. -/
def exGood : String :=
  "diff --git a/f.rs b/f.rs\n--- a/f.rs\n+++ b/f.rs\n@@ -1,2 +1,2 @@\n-old\n+new\n x"

/-- Witness for the amended C1 at a concrete well-formed diff. -/
theorem c1_amended_table_equivalence_witness :
    (∀ l ∈ rustLines exGood, goodLine l = true) ∧
    (Tui.parse_diff exGood).map projB =
      (Diff.parse_diff_enhanced wdEmpty exGood).map projE ∧
    (Tui.parse_diff exGood).map resolveB =
      (Diff.parse_diff_enhanced wdEmpty exGood).map resolveE := by
  have h := c1_amended_table_equivalence wdEmpty exGood (by decide)
  exact ⟨by decide, h.1, h.2⟩

/-- Witness for C9: all four addressing cases at concrete states. -/
theorem c9_line_comment_side_preference_witness :
    Tui.start_line_comment
        { app0 with use_delta := true, delta_cache := some "x",
                    delta_line_info := [⟨some "f.rs", some 3, some 7⟩] } =
      { { app0 with use_delta := true, delta_cache := some "x",
                    delta_line_info := [⟨some "f.rs", some 3, some 7⟩] } with
          line_comment_ctx := some ⟨"f.rs", 7, Tui.CommentSide.Right⟩,
          input_mode := Tui.InputMode.LineComment, input_buffer := "" } ∧
    Tui.start_line_comment
        { app0 with use_delta := true, delta_cache := some "x",
                    delta_line_info := [⟨some "f.rs", some 3, none⟩] } =
      { { app0 with use_delta := true, delta_cache := some "x",
                    delta_line_info := [⟨some "f.rs", some 3, none⟩] } with
          line_comment_ctx := some ⟨"f.rs", 3, Tui.CommentSide.Left⟩,
          input_mode := Tui.InputMode.LineComment, input_buffer := "" } ∧
    Tui.start_line_comment
        { app0 with diff_lines := [⟨some "g.rs", some 9, some 2, Tui.DiffLineType.Context⟩] } =
      { { app0 with diff_lines := [⟨some "g.rs", some 9, some 2, Tui.DiffLineType.Context⟩] } with
          line_comment_ctx := some ⟨"g.rs", 9, Tui.CommentSide.Right⟩,
          input_mode := Tui.InputMode.LineComment, input_buffer := "" } ∧
    Tui.start_line_comment
        { app0 with diff_lines := [⟨some "g.rs", none, some 4, Tui.DiffLineType.Removed⟩] } =
      { { app0 with diff_lines := [⟨some "g.rs", none, some 4, Tui.DiffLineType.Removed⟩] } with
          line_comment_ctx := some ⟨"g.rs", 4, Tui.CommentSide.Left⟩,
          input_mode := Tui.InputMode.LineComment, input_buffer := "" } := by
  refine ⟨?_, ?_, ?_, ?_⟩
  · exact (c9_line_comment_side_preference _ (by decide)).1 (by decide)
      ⟨some "f.rs", some 3, some 7⟩ "f.rs" 7 (by decide) (by decide) (by decide)
  · exact (c9_line_comment_side_preference _ (by decide)).2.1 (by decide)
      ⟨some "f.rs", some 3, none⟩ "f.rs" 3 (by decide) (by decide) (by decide) (by decide)
  · exact (c9_line_comment_side_preference _ (by decide)).2.2.1 (by decide)
      ⟨some "g.rs", some 9, some 2, Tui.DiffLineType.Context⟩ "g.rs" 9
      (by decide) (by decide) (by decide)
  · exact (c9_line_comment_side_preference _ (by decide)).2.2.2 (by decide)
      ⟨some "g.rs", none, some 4, Tui.DiffLineType.Removed⟩ "g.rs" 4
      (by decide) (by decide) (by decide) (by decide)

end Reviewer
